import Mathlib

/-!
Verification of the delay-compensated rollout pipeline of `slippi_ai`
(`slippi_ai/evaluators.py`, `RolloutWorker`), against its natural-language
specification.

The worker orchestration (`RolloutWorker.__init__`, `_push_actions`,
`rollout`, `update_variables`) is translated directly from
`src/slippi_ai/evaluators.py`.  The delayed agent (`eval_lib`), the batched
environment (`envs`) and the reward function (`reward`) are external to the
reviewed source tree; their definitions below are modelled from the spec
(sections 4.1, 4.2, 6) and are marked as such in their doc comments.

Conventions: the numpy batch dimension `[B]` is abstracted into the opaque
state/action types; python dicts keyed by port are modelled as association
lists in insertion order (python dicts preserve insertion order, and every
dict here is built by iterating the same `self._agents` dict, so positional
zips below coincide with dict indexing).
-/

namespace SlippiAI

/-- Ports identify agents, as in `evaluators.py` (`Port = int`). -/
abbrev Port := Nat

/-- Association-list lookup with a default, modelling python dict indexing
`d[port]` in contexts where the protocol guarantees the key is present. -/
def lookupA {A : Type} (p : Port) (l : List (Port × A)) (d : A) : A :=
  ((l.lookup p).getD d)

/-- Output of one environment frame: per-port game states plus the reset
flag, as consumed by `RolloutWorker.record_state` (`EnvOutput` with
`gamestates` and `needs_reset`). -/
structure EnvOutput (G : Type) where
  gamestates : Port → G
  needs_reset : Bool

/-- Modelled from the spec: `env_lib.BatchedEnvironment` is not under
`src/`.  Spec sections 4.2 and 6: the environment advances a batch of
simulations one frame per pushed action set, exposes decoupled
`push`/`pop`/`peek`, holds an internal FIFO of buffered outputs with one
initial state available for free before any push (`evaluators.py` line 90),
and exposes its internal buffer depth as the constant `num_steps`
(`self._env.num_steps`, line 95).  `W` is the opaque simulation state,
`stepW` the frame transition, `view` the projection to observable output. -/
structure BatchedEnvironment (G C W : Type) where
  num_steps : Nat
  stepW : W → List (Port × C) → W
  view : W → EnvOutput G
  world : W
  queue : List (EnvOutput G)

/-- Modelled from the spec: `push(actions)` submits one action set and
buffers the resulting frame. -/
def BatchedEnvironment.push {G C W : Type} (env : BatchedEnvironment G C W)
    (actions : List (Port × C)) : BatchedEnvironment G C W :=
  let w := env.stepW env.world actions
  { env with world := w, queue := env.queue ++ [env.view w] }

/-- Modelled from the spec: `pop()` removes and returns the oldest buffered
`(states, resetFlags)`.  Popping an empty buffer blocks in the real system
and never happens under the protocol; the model returns the current view. -/
def BatchedEnvironment.pop {G C W : Type} (env : BatchedEnvironment G C W) :
    EnvOutput G × BatchedEnvironment G C W :=
  match env.queue with
  | o :: rest => (o, { env with queue := rest })
  | [] => (env.view env.world, env)

/-- Modelled from the spec: `peek()` returns the oldest buffered output
without removing it, so that the overlap frame "remains available for the
next rollout call" (spec section 4.3 step 3 and the seamless-trajectory
property of section 8). -/
def BatchedEnvironment.peek {G C W : Type} (env : BatchedEnvironment G C W) :
    EnvOutput G :=
  match env.queue with
  | o :: _ => o
  | [] => env.view env.world

/-- Modelled from the spec: the per-agent delay buffer built by
`eval_lib.build_delayed_agent`, which is not under `src/`.  Spec sections
4.1 and 6: `push(state, resetFlag)` enqueues a state for decision-making,
`pop()` returns the oldest ready action, `peekN(n)` forces the buffer to
process `n` queued states without popping.  The buffer "enforces the
agent's configured delay": `delay` actions (dummy sample outputs) are ready
before any state has been pushed, which is what lets construction-time
priming pop `min_delay` actions with no state injected.  `step` is the
decision function (policy) threading the recurrent `hidden` state;
`vars` are the policy variables (`policy.variables`); `decode` models
`embed_controller.decode(action.controller_state)`; `batch_steps` is the
internal buffer capacity constant checked at worker construction. -/
structure DelayedAgent (G C A H V : Type) where
  delay : Nat
  batch_steps : Nat
  name_code : Nat
  dummy_sample_outputs : A
  decode : A → C
  step : List V → H → G → Bool → A × H
  vars : List V
  hidden : H
  state_queue : List (G × Bool)
  action_queue : List A

/-- Modelled from the spec: a freshly built delayed agent has no pending
states and `delay` dummy actions ready. -/
def mkDelayedAgent {G C A H V : Type} (delay batch_steps name_code : Nat)
    (dummy : A) (decode : A → C) (step : List V → H → G → Bool → A × H)
    (vars : List V) (hidden : H) : DelayedAgent G C A H V :=
  { delay := delay
    batch_steps := batch_steps
    name_code := name_code
    dummy_sample_outputs := dummy
    decode := decode
    step := step
    vars := vars
    hidden := hidden
    state_queue := []
    action_queue := List.replicate delay dummy }

/-- Modelled from the spec: `push(state, resetFlag)` enqueues a state. -/
def DelayedAgent.push {G C A H V : Type} (ag : DelayedAgent G C A H V)
    (g : G) (reset : Bool) : DelayedAgent G C A H V :=
  { ag with state_queue := ag.state_queue ++ [(g, reset)] }

/-- Modelled from the spec: process the oldest enqueued state through the
decision function, making its action ready and updating the hidden state. -/
def DelayedAgent.processOne {G C A H V : Type} (ag : DelayedAgent G C A H V) :
    DelayedAgent G C A H V :=
  match ag.state_queue with
  | [] => ag
  | (g, r) :: rest =>
    let ah := ag.step ag.vars ag.hidden g r
    { ag with
      state_queue := rest
      hidden := ah.2
      action_queue := ag.action_queue ++ [ah.1] }

/-- Iterated `processOne`. -/
def DelayedAgent.processN {G C A H V : Type} (ag : DelayedAgent G C A H V) :
    Nat → DelayedAgent G C A H V
  | 0 => ag
  | n + 1 => (ag.processOne).processN n

/-- Modelled from the spec: `pop()` dequeues the oldest ready action,
forcing one state to be processed if no action is ready yet.  Popping with
nothing pushed and nothing ready blocks in the real system and never
happens under the protocol; the model returns the dummy output there. -/
def DelayedAgent.pop {G C A H V : Type} (ag : DelayedAgent G C A H V) :
    A × DelayedAgent G C A H V :=
  match ag.action_queue with
  | a :: rest => (a, { ag with action_queue := rest })
  | [] =>
    let ag' := ag.processOne
    match ag'.action_queue with
    | a :: rest => (a, { ag' with action_queue := rest })
    | [] => (ag.dummy_sample_outputs, ag')

/-- Modelled from the spec: `peekN(n)` forces the buffer to process `n`
additional queued states and returns the first `n` ready actions without
removing them (used to drain an agent's backlog at rollout boundaries). -/
def DelayedAgent.peek_n {G C A H V : Type} (ag : DelayedAgent G C A H V)
    (n : Nat) : List A × DelayedAgent G C A H V :=
  let ag' := ag.processN n
  (ag'.action_queue.take n, ag')

/-- Per-agent time-major trajectory, translated from `evaluators.py`
`Trajectory` (lines 28-36).  The `[B]` batch axis is abstracted away. -/
structure Trajectory (G A H R : Type) where
  states : List G
  name : List Nat
  actions : List A
  rewards : List R
  is_resetting : List Bool
  initial_state : H
  delayed_actions : List A

/-- Modelled from the spec: `slippi_ai.reward.compute_rewards` is not under
`src/`.  Spec sections 4.4 and 6: a pure function of consecutive state
pairs, yielding one fewer reward than states; the `damage_ratio` policy
detail is folded into the pair function `f`. -/
def compute_rewards {G R : Type} (f : G → G → R) (states : List G) : List R :=
  List.zipWith f states states.tail

/-- The rollout worker state, translated from `evaluators.py`
`RolloutWorker` (lines 38-120): agents keyed by port in insertion order,
the batched environment, the cached `min_delay`, and the pending-outputs
deque `_prev_agent_outputs` (front = oldest).  `embed_game` models
`embed.default_embed_game.from_state` and `reward_fn` the reward function
with `damage_ratio` baked in. -/
structure RolloutWorker (G C A H V W R : Type) where
  agents : List (Port × DelayedAgent G C A H V)
  env : BatchedEnvironment G C W
  min_delay : Nat
  prev_agent_outputs : List (List (Port × A))
  embed_game : G → G
  reward_fn : G → G → R

variable {G C A H V W R : Type}

/-- Translated from `RolloutWorker._push_actions` (lines 107-120): pop one
action from every agent, append the popped set to the pending-outputs
deque, decode each action and push the decoded set into the environment. -/
def RolloutWorker.pushActions (w : RolloutWorker G C A H V W R) :
    RolloutWorker G C A H V W R :=
  let pairs := w.agents.map (fun pa => (pa.1, pa.2.pop))
  { w with
    agents := pairs.map (fun x => (x.1, x.2.2))
    prev_agent_outputs :=
      w.prev_agent_outputs ++ [pairs.map (fun x => (x.1, x.2.1))]
    env := w.env.push (pairs.map (fun x => (x.1, x.2.2.decode x.2.1))) }

/-- The minimum delay over all agents (`evaluators.py` line 103); python
`min` on an empty dict raises, which never happens under the protocol. -/
def minDelay (agents : List (Port × DelayedAgent G C A H V)) : Nat :=
  match agents.map (fun pa => pa.2.delay) with
  | [] => 0
  | d :: ds => ds.foldl Nat.min d

/-- The buffer-size check of `evaluators.py` lines 88-100, over `Int` to
mirror python integer arithmetic exactly:
`(batch_steps - 1) + (env.num_steps - 1) > 1 + delay`. -/
def bufferCheckFails (env_num_steps : Nat) (ag : DelayedAgent G C A H V) :
    Bool :=
  ((ag.batch_steps : Int) - 1) + ((env_num_steps : Int) - 1) >
    1 + (ag.delay : Int)

/-- The worker state after the deque seeding of `__init__` (lines 82-86)
and before the buffer check and priming: the pending-outputs deque holds
one entry mapping every port to that agent's dummy sample outputs. -/
def seedWorker (agents : List (Port × DelayedAgent G C A H V))
    (env : BatchedEnvironment G C W) (embed_game : G → G)
    (reward_fn : G → G → R) : RolloutWorker G C A H V W R :=
  { agents := agents
    env := env
    min_delay := minDelay agents
    prev_agent_outputs :=
      [agents.map (fun pa => (pa.1, pa.2.dummy_sample_outputs))]
    embed_game := embed_game
    reward_fn := reward_fn }

/-- Translated from `RolloutWorker.__init__` (lines 82-105): seed the
pending-outputs deque, validate the buffer-size invariant for every agent
(raising `ValueError` before any priming push executes), then prime the
pipeline with `min_delay` rounds of `_push_actions`. -/
def RolloutWorker.init (agents : List (Port × DelayedAgent G C A H V))
    (env : BatchedEnvironment G C W) (embed_game : G → G)
    (reward_fn : G → G → R) :
    Except String (RolloutWorker G C A H V W R) :=
  if agents.any (fun pa => bufferCheckFails env.num_steps pa.2) then
    .error "Agent and environment step buffer sizes are too large"
  else
    .ok (RolloutWorker.pushActions^[minDelay agents]
      (seedWorker agents env embed_game reward_fn))

/-- One recorded frame: the environment output together with the
pending-outputs entry it was paired with (`record_state`, lines 139-146). -/
abbrev RecEntry (G A : Type) := EnvOutput G × List (Port × A)

/-- One iteration of the rollout loop (lines 148-165): pop the next
environment output, pair it with the dequeued oldest pending-outputs entry,
push the embedded state (with the reset flag) into every agent's delay
buffer, then `_push_actions`. -/
def RolloutWorker.rolloutStep (w : RolloutWorker G C A H V W R) :
    RecEntry G A × RolloutWorker G C A H V W R :=
  let po := w.env.pop
  let entry := w.prev_agent_outputs.headD []
  let w₁ : RolloutWorker G C A H V W R :=
    { w with
      env := po.2
      prev_agent_outputs := w.prev_agent_outputs.tail
      agents := w.agents.map (fun pa =>
        (pa.1, pa.2.push (w.embed_game (po.1.gamestates pa.1))
          po.1.needs_reset)) }
  ((po.1, entry), w₁.pushActions)

/-- The `num_steps` loop of `rollout` (lines 148-165), returning the
recorded frames in order together with the worker state after the loop. -/
def RolloutWorker.rolloutLoop (w : RolloutWorker G C A H V W R) :
    Nat → List (RecEntry G A) × RolloutWorker G C A H V W R
  | 0 => ([], w)
  | n + 1 =>
    let sw := w.rolloutStep
    let rest := sw.2.rolloutLoop n
    (sw.1 :: rest.1, rest.2)

/-- The per-agent drain contributions of `rollout` finalization (lines
177-178): the result of `peek_n(agent.delay - min_delay)` for each agent at
the end of the `num_steps` loop. -/
def RolloutWorker.drainContributions (w : RolloutWorker G C A H V W R)
    (num_steps : Nat) : List (Port × List A) :=
  let w₁ := (w.rolloutLoop num_steps).2
  w₁.agents.map (fun pa =>
    (pa.1, (pa.2.peek_n (pa.2.delay - w₁.min_delay)).1))

/-- The per-port trajectory record assembled by `rollout` finalization
(lines 187-204): `p` is the port, `ag0` the agent at rollout start (source
of the `initial_states[port]` snapshot, line 132), `ag1` the agent at the
point of assembly (source of name code, dummy outputs and the `peek_n`
drain).  `delayed_actions` is the deque tail projected to the port followed
by the `peek_n(delay - min_delay)` result (lines 173-178). -/
def trajBody (w₁ : RolloutWorker G C A H V W R) (num_steps : Nat)
    (all_recs : List (RecEntry G A)) (remaining : List (List (Port × A)))
    (p : Port) (ag0 ag1 : DelayedAgent G C A H V) : Trajectory G A H R :=
  { states := (all_recs.map (fun r => r.1.gamestates p)).map w₁.embed_game
    name := List.replicate (num_steps + 1) ag1.name_code
    actions := all_recs.map (fun r => lookupA p r.2 ag1.dummy_sample_outputs)
    rewards := compute_rewards w₁.reward_fn
      (all_recs.map (fun r => r.1.gamestates p))
    is_resetting := all_recs.map (fun r => r.1.needs_reset)
    initial_state := ag0.hidden
    delayed_actions :=
      remaining.map (fun e => lookupA p e ag1.dummy_sample_outputs) ++
        (ag1.peek_n (ag1.delay - w₁.min_delay)).1 }

/-- Translated from `RolloutWorker.rollout` (lines 122-220): snapshot
initial recurrent states, run the `num_steps` loop, record the final
overlap frame from `env.peek()` paired with the still-oldest deque entry
(not dequeued), drain each agent with `peek_n(delay - min_delay)`, and
assemble per-port time-major trajectories.  Timing statistics are
observability-only and omitted. -/
def RolloutWorker.rollout (w : RolloutWorker G C A H V W R)
    (num_steps : Nat) :
    List (Port × Trajectory G A H R) × RolloutWorker G C A H V W R :=
  let lw := w.rolloutLoop num_steps
  let w₁ := lw.2
  let all_recs : List (RecEntry G A) :=
    lw.1 ++ [(w₁.env.peek, w₁.prev_agent_outputs.headD [])]
  let remaining := w₁.prev_agent_outputs.tail
  let trajs := (w.agents.zip w₁.agents).map (fun pp =>
    (pp.1.1, trajBody w₁ num_steps all_recs remaining pp.1.1 pp.1.2 pp.2.2))
  (trajs,
    { w₁ with agents := w₁.agents.map (fun pa =>
        (pa.1, (pa.2.peek_n (pa.2.delay - w₁.min_delay)).2)) })

/-- Python `zip`-assignment of new values onto a variable list
(`update_variables`, lines 225-228): the first `min` length entries are
replaced, the rest kept. -/
def assignZip {V : Type} : List V → List V → List V
  | vars, [] => vars
  | [], _ :: _ => []
  | _ :: vars, x :: vals => x :: assignZip vars vals

/-- One assignment of `update_variables` (lines 225-228): reassign the
variables of the agent at `pv.1` (python dict indexing `self._agents[port]`)
by zipping the new values onto `policy.variables` in order. -/
def updateAgents (ags : List (Port × DelayedAgent G C A H V))
    (pv : Port × List V) : List (Port × DelayedAgent G C A H V) :=
  ags.map (fun pa =>
    if pa.1 = pv.1 then
      (pa.1, { pa.2 with vars := assignZip pa.2.vars pv.2 })
    else pa)

/-- Translated from `RolloutWorker.update_variables` (lines 222-228): for
each `(port, values)` in `updates`, reassign that port's policy variables
by zipping `values` onto them in order.  Everything else is untouched. -/
def RolloutWorker.update_variables (w : RolloutWorker G C A H V W R)
    (updates : List (Port × List V)) : RolloutWorker G C A H V W R :=
  { w with agents := updates.foldl updateAgents w.agents }

/-- The decision-function action sequence: the actions the agent computes
upon observing, in FIFO order, the given `(embedded state, reset flag)`
pairs starting from hidden state `h`, together with the final hidden state.
This is the reference point of the delay-correctness property: the `j`-th
element is "the action the agent computed when it first observed" the
`j`-th state it was fed. -/
def computeScan (step : List V → H → G → Bool → A × H) (vars : List V) :
    H → List (G × Bool) → List A × H
  | h, [] => ([], h)
  | h, gb :: rest =>
    let ah := step vars h gb.1 gb.2
    let cs := computeScan step vars ah.2 rest
    (ah.1 :: cs.1, cs.2)

/-- The steady-state (rollout-boundary) well-formedness of a worker: ports
are unique, there is at least one agent, `min_delay` caches the true
minimum delay, the pending-outputs deque and the environment buffer each
hold `1 + min_delay` entries, and every agent has an empty state queue with
exactly `delay - min_delay` ready actions.  Established by construction and
preserved by every `rollout` call. -/
def RolloutWorker.Boundary (w : RolloutWorker G C A H V W R) : Prop :=
  (w.agents.map Prod.fst).Nodup ∧
  0 < w.agents.length ∧
  w.min_delay = minDelay w.agents ∧
  w.prev_agent_outputs.length = 1 + w.min_delay ∧
  w.env.queue.length = 1 + w.min_delay ∧
  ∀ pa ∈ w.agents, w.min_delay ≤ pa.2.delay ∧ pa.2.state_queue = [] ∧
    pa.2.action_queue.length = pa.2.delay - w.min_delay

instance {G C A H V W R : Type} [DecidableEq G]
    (w : RolloutWorker G C A H V W R) : Decidable w.Boundary := by
  unfold RolloutWorker.Boundary
  infer_instance

/-! ### Basic lemmas about the decision-function scan -/

theorem computeScan_length (st : List V → H → G → Bool → A × H) (v : List V) :
    ∀ (h : H) (l : List (G × Bool)),
      (computeScan st v h l).1.length = l.length := by
  intro h l
  induction l generalizing h with
  | nil => rfl
  | cons x xs ih => simp [computeScan, ih]

theorem computeScan_append (st : List V → H → G → Bool → A × H) (v : List V)
    (h : H) (l₁ l₂ : List (G × Bool)) :
    computeScan st v h (l₁ ++ l₂) =
      ((computeScan st v h l₁).1 ++
        (computeScan st v (computeScan st v h l₁).2 l₂).1,
       (computeScan st v (computeScan st v h l₁).2 l₂).2) := by
  induction l₁ generalizing h with
  | nil => simp [computeScan]
  | cons x xs ih => simp [computeScan, ih]

/-! ### The rollout-loop invariant

The mid-loop state of the worker, relative to a boundary (post-priming or
post-drain) worker `w` and the frames `rs` recorded so far.  `obsOf`
extracts the inputs a given agent has been fed during this rollout;
`midAgent` is the closed form of an agent's buffer state after `t` steps;
`poppedAt`/`entryAt` give the pending-outputs entries appended during the
loop: the `j`-th popped action of an agent is its `j`-th remaining ready
action if any are left, and otherwise the action its decision function
computes from the `(j - leftovers)`-th state it observed this rollout. -/

def obsOf (embed : G → G) (p : Port) (rs : List (RecEntry G A)) :
    List (G × Bool) :=
  rs.map (fun r => (embed (r.1.gamestates p), r.1.needs_reset))

def midAgent (embed : G → G) (rs : List (RecEntry G A)) (p : Port)
    (ag : DelayedAgent G C A H V) (t : Nat) : DelayedAgent G C A H V :=
  let obs := obsOf embed p rs
  let pc := t - ag.action_queue.length
  { ag with
    state_queue := obs.drop pc
    hidden := (computeScan ag.step ag.vars ag.hidden (obs.take pc)).2
    action_queue := ag.action_queue.drop t }

def poppedAt (embed : G → G) (rs : List (RecEntry G A))
    (pa : Port × DelayedAgent G C A H V) (j : Nat) : A :=
  (pa.2.action_queue ++
      (computeScan pa.2.step pa.2.vars pa.2.hidden
        (obsOf embed pa.1 rs)).1).getD
    j pa.2.dummy_sample_outputs

def entryAt (w : RolloutWorker G C A H V W R) (rs : List (RecEntry G A))
    (j : Nat) : List (Port × A) :=
  w.agents.map (fun pa => (pa.1, poppedAt w.embed_game rs pa j))

def LoopInv (w : RolloutWorker G C A H V W R) (t : Nat)
    (rs : List (RecEntry G A)) (w' : RolloutWorker G C A H V W R) : Prop :=
  rs.length = t ∧
  w'.min_delay = w.min_delay ∧
  w'.embed_game = w.embed_game ∧
  w'.reward_fn = w.reward_fn ∧
  w'.env.queue.length = w.env.queue.length ∧
  rs.map Prod.snd ++ w'.prev_agent_outputs =
    w.prev_agent_outputs ++ (List.range t).map (entryAt w rs) ∧
  w'.agents =
    w.agents.map (fun pa => (pa.1, midAgent w.embed_game rs pa.1 pa.2 t))

@[simp] theorem obsOf_length (embed : G → G) (p : Port)
    (rs : List (RecEntry G A)) : (obsOf embed p rs).length = rs.length := by
  simp [obsOf]

theorem obsOf_append (embed : G → G) (p : Port) (rs : List (RecEntry G A))
    (r : RecEntry G A) :
    obsOf embed p (rs ++ [r]) =
      obsOf embed p rs ++ [(embed (r.1.gamestates p), r.1.needs_reset)] := by
  simp [obsOf]

/-- The heart of the step-loop invariant: pushing the freshly popped state
into an agent that is `t = rs.length` steps into a rollout and then popping
an action from it yields the action predicted by `poppedAt` and leaves the
agent in the `midAgent` state for `t + 1` steps. -/
theorem pop_push_midAgent (embed : G → G) (p : Port)
    (ag : DelayedAgent G C A H V) (rs : List (RecEntry G A))
    (r : RecEntry G A) :
    ((midAgent embed rs p ag rs.length).push (embed (r.1.gamestates p))
        r.1.needs_reset).pop =
      (poppedAt embed (rs ++ [r]) (p, ag) rs.length,
       midAgent embed (rs ++ [r]) p ag (rs.length + 1)) := by
  obtain ⟨d, bs, nc, du, de, st, va, hi, sq, aq⟩ := ag
  set t := rs.length with ht
  set obs := obsOf embed p rs with hobs
  set x : G × Bool := (embed (r.1.gamestates p), r.1.needs_reset) with hx
  have hobs' : obsOf embed p (rs ++ [r]) = obs ++ [x] := obsOf_append ..
  have hobslen : obs.length = t := obsOf_length ..
  rcases Nat.lt_or_ge t aq.length with hlt | hge
  · -- leftover ready actions remain: the pop takes the next one.
    have h0 : t - aq.length = 0 := Nat.sub_eq_zero_of_le hlt.le
    have h0' : t + 1 - aq.length = 0 :=
      Nat.sub_eq_zero_of_le (Nat.succ_le_of_lt hlt)
    have hd : aq.drop t = aq[t] :: aq.drop (t + 1) :=
      List.drop_eq_getElem_cons hlt
    simp only [midAgent, DelayedAgent.push, DelayedAgent.pop, poppedAt,
      hobs', ← hobs, h0, h0', List.drop_zero, List.take_zero, computeScan,
      hd]
    rw [List.getD_append _ _ _ _ hlt, List.getD_eq_getElem aq du hlt]
  · -- leftovers exhausted: the pop processes the oldest queued state.
    have hdnil : aq.drop t = [] := List.drop_eq_nil_of_le hge
    have hdnil' : aq.drop (t + 1) = [] :=
      List.drop_eq_nil_of_le (le_trans hge (Nat.le_succ t))
    set pc := t - aq.length with hpc
    have hpcle : pc ≤ t := Nat.sub_le ..
    have hpclt : pc < (obs ++ [x]).length := by
      simp [hobslen]
      omega
    have hpc1 : t + 1 - aq.length = pc + 1 := by omega
    have htake : (obs ++ [x]).take pc = obs.take pc :=
      List.take_append_of_le_length (by omega)
    have hdropx : obs.drop pc ++ [x] = (obs ++ [x]).drop pc :=
      (List.drop_append_of_le_length (by omega)).symm
    have hdc : (obs ++ [x]).drop pc =
        (obs ++ [x])[pc] :: (obs ++ [x]).drop (pc + 1) :=
      List.drop_eq_getElem_cons hpclt
    have htake1 : (obs ++ [x]).take (pc + 1) =
        (obs ++ [x]).take pc ++ [(obs ++ [x])[pc]] := by
      rw [← List.take_concat_get _ _ hpclt, List.concat_eq_append]
    have hsplit : obs ++ [x] =
        (obs ++ [x]).take pc ++ ((obs ++ [x])[pc] :: (obs ++ [x]).drop (pc + 1)) := by
      rw [← hdc, List.take_append_drop]
    have hscantake : ((obs ++ [x]).take pc).length = pc := by
      simp
      omega
    simp only [midAgent, DelayedAgent.push, DelayedAgent.pop,
      DelayedAgent.processOne, poppedAt, hobs', ← hobs, ← hpc, hdnil,
      hdnil', hpc1, hdropx, hdc, htake, htake1, List.nil_append]
    rw [List.getD_append_right _ _ _ _ (by omega : aq.length ≤ t)]
    have hscan :
        (computeScan st va hi (obs ++ [x])).1 =
          (computeScan st va hi ((obs ++ [x]).take pc)).1 ++
            ((st va (computeScan st va hi ((obs ++ [x]).take pc)).2
                (obs ++ [x])[pc].1 (obs ++ [x])[pc].2).1 ::
              (computeScan st va
                (st va (computeScan st va hi ((obs ++ [x]).take pc)).2
                  (obs ++ [x])[pc].1 (obs ++ [x])[pc].2).2
                ((obs ++ [x]).drop (pc + 1))).1) := by
      conv_lhs => rw [hsplit]
      rw [computeScan_append]
      simp [computeScan]
    rw [hscan]
    rw [List.getD_append_right _ _ _ _
      (by rw [computeScan_length, hscantake] : _ ≤ t - aq.length)]
    rw [computeScan_length, hscantake]
    have : t - aq.length - pc = 0 := by omega
    rw [this]
    rw [computeScan_append]
    simp [computeScan, htake]

/-- Pending-outputs entries already appended are unchanged by recording one
more frame. -/
theorem entryAt_append (w : RolloutWorker G C A H V W R)
    (rs : List (RecEntry G A)) (r : RecEntry G A) (j : Nat)
    (hj : j < rs.length) : entryAt w (rs ++ [r]) j = entryAt w rs j := by
  unfold entryAt
  apply List.map_congr_left
  intro pa _
  unfold poppedAt
  rw [obsOf_append, computeScan_append, ← List.append_assoc]
  have hlt : j < (pa.2.action_queue ++
      (computeScan pa.2.step pa.2.vars pa.2.hidden
        (obsOf w.embed_game pa.1 rs)).1).length := by
    rw [List.length_append, computeScan_length, obsOf_length]
    omega
  rw [List.getD_append _ _ _ _ hlt]

/-- The loop invariant holds vacuously at a rollout boundary. -/
theorem loopInv_zero (w : RolloutWorker G C A H V W R) (hB : w.Boundary) :
    LoopInv w 0 [] w := by
  obtain ⟨-, -, -, -, -, h6⟩ := hB
  refine ⟨rfl, rfl, rfl, rfl, rfl, by simp, ?_⟩
  have hid : ∀ pa ∈ w.agents,
      (pa.1, midAgent w.embed_game ([] : List (RecEntry G A)) pa.1 pa.2 0) =
        pa := by
    intro pa hpa
    obtain ⟨-, hsq, -⟩ := h6 pa hpa
    obtain ⟨p, ag⟩ := pa
    obtain ⟨d, bs, nc, du, de, st, va, hi, sq, aq⟩ := ag
    simp only at hsq
    subst hsq
    simp [midAgent, obsOf, computeScan]
  conv_lhs => rw [← List.map_id w.agents]
  exact List.map_congr_left (fun pa h => (hid pa h).symm)

/-- One iteration of the rollout loop advances the loop invariant. -/
theorem loopInv_step (w : RolloutWorker G C A H V W R) (hB : w.Boundary)
    (t : Nat) (rs : List (RecEntry G A)) (wm : RolloutWorker G C A H V W R)
    (hI : LoopInv w t rs wm) :
    LoopInv w (t + 1) (rs ++ [wm.rolloutStep.1]) wm.rolloutStep.2 := by
  obtain ⟨hlen, hmind, hembed, hrew, henvl, hdeq, hags⟩ := hI
  obtain ⟨hnd, hpos, hmd, hdl, hel, hbag⟩ := hB
  subst hlen
  obtain ⟨q, qrest, hq⟩ : ∃ q qrest, wm.env.queue = q :: qrest := by
    cases hq : wm.env.queue with
    | nil =>
      rw [hq, hel] at henvl
      simp only [List.length_nil] at henvl
      exact absurd henvl (by omega)
    | cons a l => exact ⟨a, l, rfl⟩
  have hdml : wm.prev_agent_outputs.length = 1 + w.min_delay := by
    have hlen2 := congrArg List.length hdeq
    simp only [List.length_append, List.length_map, List.length_range] at hlen2
    omega
  obtain ⟨e, erest, he⟩ : ∃ e erest, wm.prev_agent_outputs = e :: erest := by
    cases he : wm.prev_agent_outputs with
    | nil =>
      rw [he] at hdml
      simp only [List.length_nil] at hdml
      exact absurd hdml (by omega)
    | cons a l => exact ⟨a, l, rfl⟩
  have hstep1 : wm.rolloutStep.1 = (q, e) := by
    simp [RolloutWorker.rolloutStep, BatchedEnvironment.pop, hq, he]
  set rs' : List (RecEntry G A) := rs ++ [wm.rolloutStep.1] with hrs'
  have hpairs :
      (wm.agents.map (fun pa =>
          (pa.1, pa.2.push (wm.embed_game (wm.rolloutStep.1.1.gamestates pa.1))
            wm.rolloutStep.1.1.needs_reset))).map
          (fun pa => (pa.1, pa.2.pop)) =
        w.agents.map (fun pa =>
          (pa.1, (poppedAt w.embed_game rs' pa rs.length,
            midAgent w.embed_game rs' pa.1 pa.2 (rs.length + 1)))) := by
    rw [hags, List.map_map, List.map_map]
    apply List.map_congr_left
    intro pa _
    simp only [Function.comp, hembed]
    exact congrArg (fun z => (pa.1, z))
      (pop_push_midAgent w.embed_game pa.1 pa.2 rs wm.rolloutStep.1)
  have hgoal2 : wm.rolloutStep.2 = RolloutWorker.pushActions
      { wm with
        env := { wm.env with queue := qrest }
        prev_agent_outputs := erest
        agents := wm.agents.map (fun pa =>
          (pa.1, pa.2.push (wm.embed_game (wm.rolloutStep.1.1.gamestates pa.1))
            wm.rolloutStep.1.1.needs_reset)) } := by
    rw [hstep1]
    simp [RolloutWorker.rolloutStep, BatchedEnvironment.pop, hq, he]
  rw [hgoal2]
  unfold RolloutWorker.pushActions
  refine ⟨by simp [hrs'], hmind, hembed, hrew, ?_, ?_, ?_⟩
  · have henvl2 : qrest.length + 1 = w.env.queue.length := by
      rw [hq] at henvl
      simpa using henvl
    simp [BatchedEnvironment.push]
    omega
  · simp only [hpairs, List.map_map]
    have hentry : (w.agents.map (fun pa =>
        (pa.1, (poppedAt w.embed_game rs' pa rs.length,
          midAgent w.embed_game rs' pa.1 pa.2 (rs.length + 1))))).map
          (fun x => (x.1, x.2.1)) = entryAt w rs' rs.length := by
      rw [List.map_map]
      rfl
    rw [List.map_map] at hentry
    rw [hentry]
    have hmapsnd : rs'.map Prod.snd = rs.map Prod.snd ++ [e] := by
      rw [hrs', hstep1]
      simp
    rw [hmapsnd, List.range_succ, List.map_append]
    have hstable : (List.range rs.length).map (entryAt w rs') =
        (List.range rs.length).map (entryAt w rs) := by
      apply List.map_congr_left
      intro j hj
      rw [List.mem_range] at hj
      rw [hrs']
      exact entryAt_append w rs wm.rolloutStep.1 j hj
    rw [hstable]
    have hassoc : rs.map Prod.snd ++ [e] ++ (erest ++ [entryAt w rs' rs.length]) =
        (rs.map Prod.snd ++ (e :: erest)) ++ [entryAt w rs' rs.length] := by
      simp
    rw [hassoc, ← he, hdeq]
    simp
  · simp only [hpairs, List.map_map]
    rfl

/-- The loop invariant is preserved by any number of loop iterations. -/
theorem loopInv_rolloutLoop (w : RolloutWorker G C A H V W R)
    (hB : w.Boundary) :
    ∀ (T t : Nat) (rs : List (RecEntry G A))
      (wm : RolloutWorker G C A H V W R), LoopInv w t rs wm →
      LoopInv w (t + T) (rs ++ (wm.rolloutLoop T).1) (wm.rolloutLoop T).2 := by
  intro T
  induction T with
  | zero =>
    intro t rs wm h
    simpa [RolloutWorker.rolloutLoop] using h
  | succ n ih =>
    intro t rs wm h
    have h2 := ih (t + 1) (rs ++ [wm.rolloutStep.1]) wm.rolloutStep.2
      (loopInv_step w hB t rs wm h)
    have harith : t + 1 + n = t + (n + 1) := by omega
    rw [harith] at h2
    simpa [RolloutWorker.rolloutLoop] using h2

/-- The loop invariant characterizes the full rollout loop of any
`rollout(num_steps)` call starting at a boundary worker. -/
theorem loopInv_main (w : RolloutWorker G C A H V W R) (hB : w.Boundary)
    (T : Nat) :
    LoopInv w T (w.rolloutLoop T).1 (w.rolloutLoop T).2 := by
  have h := loopInv_rolloutLoop w hB T 0 [] w (loopInv_zero w hB)
  simpa using h

/-! ### Facts about the minimum delay and association-list lookups -/

theorem foldl_min_le (l : List Nat) (a : Nat) :
    ∀ x ∈ a :: l, l.foldl Nat.min a ≤ x := by
  induction l generalizing a with
  | nil => intro x hx; simp at hx; simp [hx]
  | cons d ds ih =>
    intro x hx
    simp only [List.mem_cons] at hx
    rcases hx with h | h | h
    · subst h
      exact le_trans (ih (Nat.min x d) (Nat.min x d) (by simp))
        (Nat.min_le_left ..)
    · subst h
      exact le_trans (ih (Nat.min a x) (Nat.min a x) (by simp))
        (Nat.min_le_right ..)
    · exact ih (Nat.min a d) x (by simp [h])

theorem minDelay_le (agents : List (Port × DelayedAgent G C A H V)) :
    ∀ pa ∈ agents, minDelay agents ≤ pa.2.delay := by
  intro pa hpa
  unfold minDelay
  cases hm : agents.map (fun pa => pa.2.delay) with
  | nil => simp [List.map_eq_nil_iff] at hm; simp [hm] at hpa
  | cons d ds =>
    have : pa.2.delay ∈ d :: ds := by
      rw [← hm]
      exact List.mem_map_of_mem _ hpa
    exact foldl_min_le ds d pa.2.delay this

/-- `minDelay` only depends on the list of delays, so it is invariant under
any pointwise transformation preserving ports and delays. -/
theorem minDelay_map (agents : List (Port × DelayedAgent G C A H V))
    (f : Port × DelayedAgent G C A H V → DelayedAgent G C A H V)
    (hdel : ∀ pa ∈ agents, (f pa).delay = pa.2.delay) :
    minDelay (agents.map (fun pa => (pa.1, f pa))) = minDelay agents := by
  unfold minDelay
  rw [List.map_map]
  have : agents.map ((fun pa : Port × DelayedAgent G C A H V => pa.2.delay) ∘
      (fun pa => (pa.1, f pa))) = agents.map (fun pa => pa.2.delay) :=
    List.map_congr_left (fun pa h => hdel pa h)
  rw [this]

theorem lookupA_map_key {X : Type} (l : List (Port × X))
    (f : Port × X → A) (p : Port) (x : X) (d : A)
    (hnd : (l.map Prod.fst).Nodup) (hmem : (p, x) ∈ l) :
    lookupA p (l.map (fun pa => (pa.1, f pa))) d = f (p, x) := by
  induction l with
  | nil => simp at hmem
  | cons hd tl ih =>
    simp only [List.map_cons, List.map] at hnd ⊢
    rw [List.nodup_cons] at hnd
    simp only [List.mem_cons] at hmem
    rcases hmem with hmem | hmem
    · subst hmem
      simp [lookupA, List.lookup_cons]
    · by_cases hp : p = hd.1
      · exfalso
        rw [hp] at hmem
        exact hnd.1 (by simpa using List.mem_map_of_mem Prod.fst hmem)
      · have : lookupA p ((hd.1, f hd) :: tl.map (fun pa => (pa.1, f pa))) d =
            lookupA p (tl.map (fun pa => (pa.1, f pa))) d := by
          simp [lookupA, List.lookup_cons, beq_false_of_ne hp]
        rw [this]
        exact ih hnd.2 hmem

/-! ### Priming and drain characterizations -/

/-- An agent after `k` priming pops: its `k` oldest ready actions are gone
and nothing else has changed. -/
def primedAgent (k : Nat) (ag : DelayedAgent G C A H V) :
    DelayedAgent G C A H V :=
  { ag with action_queue := ag.action_queue.drop k }

/-- Popping from an agent whose ready-action queue is the `k`-drop of `aq`
with `k < aq.length` returns the `k`-th ready action. -/
theorem pop_drop (ag : DelayedAgent G C A H V) (k : Nat)
    (hk : k < ag.action_queue.length) :
    (primedAgent k ag).pop =
      (ag.action_queue.getD k ag.dummy_sample_outputs,
       primedAgent (k + 1) ag) := by
  obtain ⟨d, bs, nc, du, de, st, va, hi, sq, aq⟩ := ag
  simp only [primedAgent] at hk ⊢
  rw [List.drop_eq_getElem_cons hk]
  simp [DelayedAgent.pop, List.getElem?_eq_getElem hk]

/-- Processing at least as many rounds as there are queued states flushes
the state queue entirely, appending the scan of the queued states. -/
theorem processN_all (k : Nat) :
    ∀ (ag : DelayedAgent G C A H V), ag.state_queue.length ≤ k →
      ag.processN k =
        { ag with
          state_queue := []
          hidden :=
            (computeScan ag.step ag.vars ag.hidden ag.state_queue).2
          action_queue := ag.action_queue ++
            (computeScan ag.step ag.vars ag.hidden ag.state_queue).1 } := by
  induction k with
  | zero =>
    intro ag hag
    have hsq : ag.state_queue = [] := by
      cases h : ag.state_queue with
      | nil => rfl
      | cons a l => rw [h] at hag; simp at hag
    obtain ⟨d, bs, nc, du, de, st, va, hi, sq, aq⟩ := ag
    simp only at hsq
    subst hsq
    simp [DelayedAgent.processN, computeScan]
  | succ n ih =>
    intro ag hag
    obtain ⟨d, bs, nc, du, de, st, va, hi, sq, aq⟩ := ag
    cases sq with
    | nil =>
      have h0 : (⟨d, bs, nc, du, de, st, va, hi, [], aq⟩ :
          DelayedAgent G C A H V).processN (n + 1) =
          (⟨d, bs, nc, du, de, st, va, hi, [], aq⟩ :
            DelayedAgent G C A H V).processN n := by
        simp [DelayedAgent.processN, DelayedAgent.processOne]
      rw [h0, ih _ (by simp)]
    | cons gb rest =>
      have h0 : (⟨d, bs, nc, du, de, st, va, hi, gb :: rest, aq⟩ :
          DelayedAgent G C A H V).processN (n + 1) =
          (⟨d, bs, nc, du, de, st, va, (st va hi gb.1 gb.2).2, rest,
            aq ++ [(st va hi gb.1 gb.2).1]⟩ :
            DelayedAgent G C A H V).processN n := by
        simp [DelayedAgent.processN, DelayedAgent.processOne]
      rw [h0, ih _ (by simpa using Nat.le_of_succ_le_succ hag)]
      simp [computeScan]

/-- The shape of an agent after the finalization drain of a rollout: the
state queue is flushed, the hidden state has absorbed every observation of
the rollout, and the ready-action queue holds the not-yet-consumed computed
actions. -/
def drainedAgent (embed : G → G) (rs : List (RecEntry G A)) (p : Port)
    (ag : DelayedAgent G C A H V) : DelayedAgent G C A H V :=
  { ag with
    state_queue := []
    hidden := (computeScan ag.step ag.vars ag.hidden (obsOf embed p rs)).2
    action_queue := ag.action_queue.drop rs.length ++
      ((computeScan ag.step ag.vars ag.hidden (obsOf embed p rs)).1).drop
        (rs.length - ag.action_queue.length) }

/-- Draining a mid-rollout agent with `peek_n k` for any `k` at least the
number of leftover ready actions flushes its state queue and yields the
`drainedAgent` closed form. -/
theorem peek_n_midAgent (embed : G → G) (rs : List (RecEntry G A)) (p : Port)
    (ag : DelayedAgent G C A H V) (k : Nat)
    (hk : ag.action_queue.length ≤ k) :
    (midAgent embed rs p ag rs.length).peek_n k =
      ((drainedAgent embed rs p ag).action_queue.take k,
       drainedAgent embed rs p ag) := by
  have hlen : (midAgent embed rs p ag rs.length).state_queue.length ≤ k := by
    simp only [midAgent, List.length_drop, obsOf_length]
    omega
  unfold DelayedAgent.peek_n
  rw [processN_all k _ hlen]
  have key := computeScan_append ag.step ag.vars ag.hidden
    ((obsOf embed p rs).take (rs.length - ag.action_queue.length))
    ((obsOf embed p rs).drop (rs.length - ag.action_queue.length))
  rw [List.take_append_drop] at key
  have hplen :
      ((obsOf embed p rs).take (rs.length - ag.action_queue.length)).length =
        rs.length - ag.action_queue.length := by
    simp only [List.length_take, obsOf_length]
    omega
  have hfst : ((computeScan ag.step ag.vars ag.hidden
      (obsOf embed p rs)).1).drop (rs.length - ag.action_queue.length) =
      (computeScan ag.step ag.vars
        (computeScan ag.step ag.vars ag.hidden
          ((obsOf embed p rs).take (rs.length - ag.action_queue.length))).2
        ((obsOf embed p rs).drop (rs.length - ag.action_queue.length))).1 := by
    rw [key]
    exact List.drop_left' (by rw [computeScan_length, hplen])
  have hsnd : (computeScan ag.step ag.vars ag.hidden (obsOf embed p rs)).2 =
      (computeScan ag.step ag.vars
        (computeScan ag.step ag.vars ag.hidden
          ((obsOf embed p rs).take (rs.length - ag.action_queue.length))).2
        ((obsOf embed p rs).drop (rs.length - ag.action_queue.length))).2 := by
    rw [key]
  obtain ⟨d, bs, nc, du, de, st, va, hi, sq, aq⟩ := ag
  simp only [midAgent, drainedAgent] at *
  rw [hfst, hsnd]

/-- The environment output recorded by a pop is exactly what `peek` sees
before it. -/
theorem env_pop_fst_eq_peek (env : BatchedEnvironment G C W) :
    env.pop.1 = env.peek := by
  unfold BatchedEnvironment.pop BatchedEnvironment.peek
  cases env.queue <;> rfl

/-- `lookup` on a keyed map of an association list finds the transform of
the original value. -/
theorem lookup_map_key {X Y : Type} (l : List (Port × X))
    (f : Port × X → Y) (p : Port) :
    (l.map (fun pa => (pa.1, f pa))).lookup p =
      (l.lookup p).map (fun x => f (p, x)) := by
  induction l with
  | nil => rfl
  | cons hd tl ih =>
    obtain ⟨ph, xh⟩ := hd
    by_cases hp : p = ph
    · subst hp
      simp [List.lookup_cons]
    · simp [List.lookup_cons, beq_false_of_ne hp, ih]

/-- `lookupA` on a keyed map of an association list. -/
theorem lookupA_map_key' {X : Type} (l : List (Port × X))
    (f : Port × X → A) (p : Port) (x : X) (d : A)
    (hl : l.lookup p = some x) :
    lookupA p (l.map (fun pa => (pa.1, f pa))) d = f (p, x) := by
  unfold lookupA
  rw [lookup_map_key, hl]
  rfl

/-- The state of the worker after `k` construction-time priming rounds:
each agent has lost its `k` oldest ready actions (and had no state pushed),
the pending-outputs deque holds the dummy seed entry followed by the `k`
popped action sets, and the environment has buffered `k` more frames. -/
def PrimeInv (agents : List (Port × DelayedAgent G C A H V))
    (env : BatchedEnvironment G C W) (embed_game : G → G)
    (reward_fn : G → G → R) (k : Nat)
    (w' : RolloutWorker G C A H V W R) : Prop :=
  w'.agents = agents.map (fun pa => (pa.1, primedAgent k pa.2)) ∧
  w'.prev_agent_outputs =
    (agents.map (fun pa => (pa.1, pa.2.dummy_sample_outputs))) ::
      (List.range k).map (fun j => agents.map (fun pa =>
        (pa.1, pa.2.action_queue.getD j pa.2.dummy_sample_outputs))) ∧
  w'.env.queue.length = env.queue.length + k ∧
  w'.min_delay = minDelay agents ∧
  w'.embed_game = embed_game ∧
  w'.reward_fn = reward_fn ∧
  w'.env.num_steps = env.num_steps

theorem primeInv_iterate (agents : List (Port × DelayedAgent G C A H V))
    (env : BatchedEnvironment G C W) (embed_game : G → G)
    (reward_fn : G → G → R) (k : Nat)
    (hk : ∀ pa ∈ agents, k ≤ pa.2.action_queue.length) :
    PrimeInv agents env embed_game reward_fn k
      (RolloutWorker.pushActions^[k]
        (seedWorker agents env embed_game reward_fn)) := by
  induction k with
  | zero =>
    refine ⟨?_, by simp [seedWorker], rfl, rfl, rfl, rfl, rfl⟩
    show agents = _
    conv_lhs => rw [← List.map_id agents]
    apply List.map_congr_left
    intro pa _
    obtain ⟨p, ag⟩ := pa
    obtain ⟨d, bs, nc, du, de, st, va, hi, sq, aq⟩ := ag
    simp [primedAgent]
  | succ n ih =>
    have hk' : ∀ pa ∈ agents, n ≤ pa.2.action_queue.length :=
      fun pa hpa => le_trans (Nat.le_succ n) (hk pa hpa)
    obtain ⟨hag, hdq, hel, hmd, hemb, hrew, hns⟩ := ih hk'
    rw [Function.iterate_succ_apply']
    set wn := RolloutWorker.pushActions^[n]
      (seedWorker agents env embed_game reward_fn) with hwn
    have hpairs : wn.agents.map (fun pa => (pa.1, pa.2.pop)) =
        agents.map (fun pa =>
          (pa.1, (pa.2.action_queue.getD n pa.2.dummy_sample_outputs,
            primedAgent (n + 1) pa.2))) := by
      rw [hag, List.map_map]
      apply List.map_congr_left
      intro pa hpa
      simp only [Function.comp]
      rw [pop_drop pa.2 n (hk pa hpa)]
    constructor
    · unfold RolloutWorker.pushActions
      simp only [hpairs, List.map_map]
      rfl
    constructor
    · unfold RolloutWorker.pushActions
      simp only [hpairs, List.map_map, hdq]
      rw [List.range_succ, List.map_append]
      simp
    refine ⟨?_, hmd, hemb, hrew, hns⟩
    unfold RolloutWorker.pushActions
    simp only [BatchedEnvironment.push, List.length_append]
    simp [hel]
    omega

/-- Characterization of a successful construction: the returned worker is
exactly `min_delay` priming rounds applied to the freshly seeded worker. -/
theorem init_ok (agents : List (Port × DelayedAgent G C A H V))
    (env : BatchedEnvironment G C W) (embed_game : G → G)
    (reward_fn : G → G → R) (w : RolloutWorker G C A H V W R)
    (hok : RolloutWorker.init agents env embed_game reward_fn = .ok w) :
    w = RolloutWorker.pushActions^[minDelay agents]
      (seedWorker agents env embed_game reward_fn) := by
  unfold RolloutWorker.init at hok
  by_cases h : agents.any (fun pa => bufferCheckFails env.num_steps pa.2)
  · rw [if_pos h] at hok
    exact absurd hok (by simp)
  · rw [if_neg h] at hok
    simpa using hok.symm

/-- A freshly built agent set: no pending states and `delay` dummy ready
actions per agent (the `mkDelayedAgent` shape). -/
def FreshAgents (agents : List (Port × DelayedAgent G C A H V)) : Prop :=
  ∀ pa ∈ agents, pa.2.state_queue = [] ∧
    pa.2.action_queue = List.replicate pa.2.delay pa.2.dummy_sample_outputs

instance {G C A H V : Type} [DecidableEq G] [DecidableEq A]
    (agents : List (Port × DelayedAgent G C A H V)) :
    Decidable (FreshAgents agents) := by
  unfold FreshAgents
  infer_instance

/-- Successful construction from fresh agents and a fresh environment
establishes the steady-state boundary invariant. -/
theorem boundary_init (agents : List (Port × DelayedAgent G C A H V))
    (env : BatchedEnvironment G C W) (embed_game : G → G)
    (reward_fn : G → G → R) (w : RolloutWorker G C A H V W R)
    (hnd : (agents.map Prod.fst).Nodup) (hpos : 0 < agents.length)
    (hfresh : FreshAgents agents) (henv : env.queue.length = 1)
    (hok : RolloutWorker.init agents env embed_game reward_fn = .ok w) :
    w.Boundary := by
  have hw := init_ok agents env embed_game reward_fn w hok
  have hP := primeInv_iterate agents env embed_game reward_fn
    (minDelay agents) (fun pa hpa => by
      rw [(hfresh pa hpa).2, List.length_replicate]
      exact minDelay_le agents pa hpa)
  rw [← hw] at hP
  obtain ⟨hag, hdq, hel, hmd, -, -, -⟩ := hP
  have hdelay : ∀ pa ∈ agents,
      (primedAgent (minDelay agents) pa.2).delay = pa.2.delay :=
    fun pa _ => rfl
  refine ⟨?_, ?_, ?_, ?_, ?_, ?_⟩
  · rw [hag, List.map_map]
    exact hnd
  · rw [hag, List.length_map]
    exact hpos
  · rw [hag, hmd, minDelay_map agents _ hdelay]
  · rw [hdq, hmd]
    simp [Nat.add_comm]
  · rw [hel, hmd, henv]
  · intro pa' hpa'
    rw [hag] at hpa'
    obtain ⟨pa, hpa, hpa'eq⟩ := List.mem_map.mp hpa'
    subst hpa'eq
    obtain ⟨hsq, haq⟩ := hfresh pa hpa
    refine ⟨by rw [hmd]; exact minDelay_le agents pa hpa, hsq, ?_⟩
    rw [hmd]
    simp only [primedAgent, List.length_drop, haq, List.length_replicate]

/-- The rollout loop records exactly one frame per step. -/
theorem rolloutLoop_length (T : Nat) :
    ∀ w : RolloutWorker G C A H V W R, (w.rolloutLoop T).1.length = T := by
  induction T with
  | zero => intro w; rfl
  | succ n ih =>
    intro w
    simp [RolloutWorker.rolloutLoop, ih]

theorem mem_of_lookup {X : Type} (l : List (Port × X)) (p : Port) (x : X)
    (h : l.lookup p = some x) : (p, x) ∈ l := by
  induction l with
  | nil => simp [List.lookup] at h
  | cons hd tl ih =>
    obtain ⟨ph, xh⟩ := hd
    by_cases hp : p = ph
    · subst hp
      simp [List.lookup_cons] at h
      simp [h]
    · rw [List.lookup_cons] at h
      simp only [beq_false_of_ne hp] at h
      exact List.mem_cons_of_mem _ (ih h)

/-- The worker returned by `rollout`: the loop-end worker with every agent
drained by `peek_n(delay - min_delay)`. -/
theorem rollout_snd (w : RolloutWorker G C A H V W R) (T : Nat) :
    (w.rollout T).2 =
      { (w.rolloutLoop T).2 with
        agents := (w.rolloutLoop T).2.agents.map (fun pa =>
          (pa.1, (pa.2.peek_n
            (pa.2.delay - (w.rolloutLoop T).2.min_delay)).2)) } := rfl

/-- Under the boundary invariant, the agents after a full `rollout` call
are the boundary agents in `drainedAgent` closed form. -/
theorem rollout_agents (w : RolloutWorker G C A H V W R) (hB : w.Boundary)
    (T : Nat) :
    (w.rollout T).2.agents = w.agents.map (fun pa =>
      (pa.1, drainedAgent w.embed_game (w.rolloutLoop T).1 pa.1 pa.2)) := by
  obtain ⟨hlen, hmind, hembed, hrew, henvl, hdeq, hags⟩ := loopInv_main w hB T
  obtain ⟨-, -, -, -, -, hbag⟩ := hB
  rw [rollout_snd, hags, List.map_map]
  apply List.map_congr_left
  intro pa hpa
  simp only [Function.comp]
  have hk : (midAgent w.embed_game (w.rolloutLoop T).1 pa.1 pa.2 T).delay -
      (w.rolloutLoop T).2.min_delay = pa.2.delay - w.min_delay := by
    rw [hmind]
    rfl
  have hpk := peek_n_midAgent w.embed_game (w.rolloutLoop T).1 pa.1 pa.2
    (pa.2.delay - w.min_delay) (le_of_eq (hbag pa hpa).2.2)
  rw [hlen] at hpk
  rw [hk, hpk]

/-- The boundary invariant is preserved by every `rollout` call. -/
theorem boundary_rollout (w : RolloutWorker G C A H V W R) (hB : w.Boundary)
    (T : Nat) : ((w.rollout T).2).Boundary := by
  obtain ⟨hlen, hmind, hembed, hrew, henvl, hdeq, hags⟩ := loopInv_main w hB T
  obtain ⟨hnd, hpos, hmd, hdl, hel, hbag⟩ := hB
  have hagents := rollout_agents w ⟨hnd, hpos, hmd, hdl, hel, hbag⟩ T
  have hdml : (w.rolloutLoop T).2.prev_agent_outputs.length =
      1 + w.min_delay := by
    have hlen2 := congrArg List.length hdeq
    simp only [List.length_append, List.length_map, List.length_range] at hlen2
    omega
  have hdelay : ∀ pa ∈ w.agents,
      (drainedAgent w.embed_game (w.rolloutLoop T).1 pa.1 pa.2 :
        DelayedAgent G C A H V).delay = pa.2.delay := fun pa _ => rfl
  have hm2 : (w.rollout T).2.min_delay = w.min_delay := hmind
  refine ⟨?_, ?_, ?_, ?_, ?_, ?_⟩
  · rw [hagents, List.map_map]
    exact hnd
  · rw [hagents, List.length_map]
    exact hpos
  · rw [hagents, minDelay_map w.agents _ hdelay, hm2, hmd]
  · show (w.rolloutLoop T).2.prev_agent_outputs.length = _
    rw [hdml, hm2]
  · show (w.rolloutLoop T).2.env.queue.length = _
    rw [henvl, hel, hm2]
  · intro pa' hpa'
    rw [hm2]
    rw [hagents] at hpa'
    obtain ⟨pa, hpa, hpaeq⟩ := List.mem_map.mp hpa'
    subst hpaeq
    obtain ⟨hge, -, haq⟩ := hbag pa hpa
    refine ⟨hge, rfl, ?_⟩
    show ((drainedAgent w.embed_game (w.rolloutLoop T).1 pa.1
        pa.2).action_queue).length = _
    simp only [drainedAgent, List.length_append, List.length_drop,
      computeScan_length, obsOf_length, rolloutLoop_length, haq]
    omega

/-- The closed form of the per-port trajectory assembled by `rollout` at a
boundary worker, for the port's boundary agent `ag`. -/
def mkTrajClosed (w : RolloutWorker G C A H V W R) (T : Nat) (p : Port)
    (ag : DelayedAgent G C A H V) : Trajectory G A H R :=
  let rs := (w.rolloutLoop T).1
  let w₁ := (w.rolloutLoop T).2
  let all_recs := rs ++ [(w₁.env.peek, w₁.prev_agent_outputs.headD [])]
  let raw := all_recs.map (fun r => r.1.gamestates p)
  { states := raw.map w.embed_game
    name := List.replicate (T + 1) ag.name_code
    actions := all_recs.map (fun r => lookupA p r.2 ag.dummy_sample_outputs)
    rewards := compute_rewards w.reward_fn raw
    is_resetting := all_recs.map (fun r => r.1.needs_reset)
    initial_state := ag.hidden
    delayed_actions := w₁.prev_agent_outputs.tail.map
        (fun e => lookupA p e ag.dummy_sample_outputs) ++
      ((drainedAgent w.embed_game rs p ag).action_queue.take
        (ag.delay - w.min_delay)) }

/-- At a boundary worker, the trajectory returned for a port is the closed
form `mkTrajClosed` of that port's boundary agent. -/
theorem rollout_traj_lookup (w : RolloutWorker G C A H V W R)
    (hB : w.Boundary) (T : Nat) (p : Port) (ag : DelayedAgent G C A H V)
    (hag : w.agents.lookup p = some ag) :
    ((w.rollout T).1).lookup p = some (mkTrajClosed w T p ag) := by
  obtain ⟨hlen, hmind, hembed, hrew, henvl, hdeq, hags⟩ := loopInv_main w hB T
  obtain ⟨-, -, -, -, -, hbag⟩ := hB
  have hmem : (p, ag) ∈ w.agents := mem_of_lookup w.agents p ag hag
  have hzip : w.agents.zip ((w.rolloutLoop T).2.agents) =
      w.agents.map (fun pa =>
        (pa, (pa.1, midAgent w.embed_game (w.rolloutLoop T).1 pa.1 pa.2 T))) := by
    have h := List.zip_map' id (fun pa : Port × DelayedAgent G C A H V =>
      (pa.1, midAgent w.embed_game (w.rolloutLoop T).1 pa.1 pa.2 T)) w.agents
    simp only [List.map_id, id_eq] at h
    rw [hags]
    exact h
  show ((w.agents.zip ((w.rolloutLoop T).2.agents)).map
    (fun pp => (pp.1.1, trajBody (w.rolloutLoop T).2 T
      ((w.rolloutLoop T).1 ++ [((w.rolloutLoop T).2.env.peek,
        (w.rolloutLoop T).2.prev_agent_outputs.headD [])])
      (w.rolloutLoop T).2.prev_agent_outputs.tail
      pp.1.1 pp.1.2 pp.2.2))).lookup p = _
  rw [hzip, List.map_map]
  have hlk := lookup_map_key w.agents
    (fun pa => trajBody (w.rolloutLoop T).2 T
      ((w.rolloutLoop T).1 ++ [((w.rolloutLoop T).2.env.peek,
        (w.rolloutLoop T).2.prev_agent_outputs.headD [])])
      (w.rolloutLoop T).2.prev_agent_outputs.tail
      pa.1 pa.2 (midAgent w.embed_game (w.rolloutLoop T).1 pa.1 pa.2 T)) p
  rw [show ((fun pp : (Port × DelayedAgent G C A H V) ×
        (Port × DelayedAgent G C A H V) =>
      (pp.1.1, trajBody (w.rolloutLoop T).2 T
        ((w.rolloutLoop T).1 ++ [((w.rolloutLoop T).2.env.peek,
          (w.rolloutLoop T).2.prev_agent_outputs.headD [])])
        (w.rolloutLoop T).2.prev_agent_outputs.tail
        pp.1.1 pp.1.2 pp.2.2)) ∘
      (fun pa : Port × DelayedAgent G C A H V =>
        (pa, (pa.1, midAgent w.embed_game (w.rolloutLoop T).1 pa.1 pa.2 T)))) =
    (fun pa : Port × DelayedAgent G C A H V =>
      (pa.1, trajBody (w.rolloutLoop T).2 T
        ((w.rolloutLoop T).1 ++ [((w.rolloutLoop T).2.env.peek,
          (w.rolloutLoop T).2.prev_agent_outputs.headD [])])
        (w.rolloutLoop T).2.prev_agent_outputs.tail
        pa.1 pa.2 (midAgent w.embed_game (w.rolloutLoop T).1 pa.1 pa.2 T)))
    from rfl]
  rw [hlk, hag]
  show some _ = some _
  congr 1
  have hpk := peek_n_midAgent w.embed_game (w.rolloutLoop T).1 p ag
    (ag.delay - w.min_delay) (le_of_eq (hbag (p, ag) hmem).2.2)
  rw [hlen] at hpk
  unfold mkTrajClosed trajBody
  dsimp only
  rw [hembed, hrew, hmind]
  rw [show (midAgent w.embed_game (w.rolloutLoop T).1 p ag
    T).dummy_sample_outputs = ag.dummy_sample_outputs from rfl]
  rw [show (midAgent w.embed_game (w.rolloutLoop T).1 p ag T).name_code =
    ag.name_code from rfl]
  rw [show (midAgent w.embed_game (w.rolloutLoop T).1 p ag T).delay =
    ag.delay from rfl]
  rw [hpk]

/-- The pending-outputs entries paired with the `T + 1` recorded frames of
a rollout are the first `T + 1` entries of the boundary deque followed by
the loop-appended entries. -/
theorem rollout_entries (w : RolloutWorker G C A H V W R) (hB : w.Boundary)
    (T : Nat) :
    ((w.rolloutLoop T).1 ++ [((w.rolloutLoop T).2.env.peek,
        (w.rolloutLoop T).2.prev_agent_outputs.headD [])]).map Prod.snd =
      (w.prev_agent_outputs ++
        (List.range T).map (entryAt w (w.rolloutLoop T).1)).take (T + 1) := by
  obtain ⟨hlen, hmind, hembed, hrew, henvl, hdeq, hags⟩ := loopInv_main w hB T
  obtain ⟨-, -, -, hdl, -, -⟩ := hB
  have hmaplen : ((w.rolloutLoop T).1.map Prod.snd).length = T := by
    rw [List.length_map, hlen]
  have htake : (w.rolloutLoop T).1.map Prod.snd =
      (w.prev_agent_outputs ++
        (List.range T).map (entryAt w (w.rolloutLoop T).1)).take T := by
    rw [← hdeq, List.take_append_of_le_length (le_of_eq hmaplen.symm),
      List.take_of_length_le (le_of_eq hmaplen)]
  have hdrop : (w.rolloutLoop T).2.prev_agent_outputs =
      (w.prev_agent_outputs ++
        (List.range T).map (entryAt w (w.rolloutLoop T).1)).drop T := by
    rw [← hdeq]
    exact (List.drop_left' hmaplen).symm
  have hTlt : T < (w.prev_agent_outputs ++
      (List.range T).map (entryAt w (w.rolloutLoop T).1)).length := by
    simp only [List.length_append, List.length_map, List.length_range, hdl]
    omega
  have hheadD : (w.rolloutLoop T).2.prev_agent_outputs.headD [] =
      (w.prev_agent_outputs ++
        (List.range T).map (entryAt w (w.rolloutLoop T).1))[T] := by
    rw [hdrop, List.headD_eq_head?, List.head?_drop,
      List.getElem?_eq_getElem hTlt]
    rfl
  rw [List.map_append]
  simp only [List.map_cons, List.map_nil]
  rw [htake, hheadD, ← List.concat_eq_append, List.take_concat_get]

/-- The observation sequence a port's agent is fed during the loop, read
off the assembled trajectory: the first `T` recorded
`(embedded state, reset flag)` pairs. -/
theorem mkTrajClosed_obs (w : RolloutWorker G C A H V W R) (T : Nat)
    (p : Port) (ag : DelayedAgent G C A H V) :
    ((mkTrajClosed w T p ag).states.zip
        (mkTrajClosed w T p ag).is_resetting).take T =
      obsOf w.embed_game p (w.rolloutLoop T).1 := by
  unfold mkTrajClosed
  dsimp only
  rw [List.map_map, List.zip_map']
  rw [← List.map_take]
  rw [List.take_append_of_le_length (le_of_eq (rolloutLoop_length T w).symm),
    List.take_of_length_le (le_of_eq (rolloutLoop_length T w))]
  rfl

/-- The recorded action at any index of the trajectory is the projection to
the port of the corresponding pending-outputs entry. -/
theorem mkTrajClosed_actions (w : RolloutWorker G C A H V W R)
    (hB : w.Boundary) (T : Nat) (p : Port) (ag : DelayedAgent G C A H V)
    (i : Nat) (hi : i ≤ T) :
    (mkTrajClosed w T p ag).actions[i]? =
      Option.map (fun e => lookupA p e ag.dummy_sample_outputs)
        ((w.prev_agent_outputs ++
          (List.range T).map (entryAt w (w.rolloutLoop T).1))[i]?) := by
  unfold mkTrajClosed
  dsimp only
  rw [show (fun r : RecEntry G A => lookupA p r.2 ag.dummy_sample_outputs) =
    ((fun e => lookupA p e ag.dummy_sample_outputs) ∘ Prod.snd) from rfl]
  rw [← List.map_map, rollout_entries w hB T]
  rw [List.getElem?_map, List.getElem?_take]
  rw [if_pos (by omega : i < T + 1)]

/-- C1 (amended): delay correctness.  For an agent with delay `D` on a
boundary worker (as established by construction and preserved by every
rollout, so in particular past the first rollout), every rollout of length
`T` pairs the action recorded at trajectory index `i`, for
`D + 1 ≤ i ≤ T`, with the action the agent's decision function computed
when it first observed the recorded state at index `i - D - 1` — one
earlier than the `i - D` the claim states. -/
theorem rollout_delay_alignment (w : RolloutWorker G C A H V W R)
    (T : Nat) (p : Port) (i : Nat) (ag : DelayedAgent G C A H V)
    (traj : Trajectory G A H R) (hB : w.Boundary)
    (hag : w.agents.lookup p = some ag)
    (htraj : ((w.rollout T).1).lookup p = some traj)
    (hi1 : ag.delay + 1 ≤ i) (hi2 : i ≤ T) :
    traj.actions[i]? =
      ((computeScan ag.step ag.vars ag.hidden
        ((traj.states.zip traj.is_resetting).take T)).1)[i - ag.delay - 1]? := by
  have htraj2 := rollout_traj_lookup w hB T p ag hag
  rw [htraj] at htraj2
  have htraj3 : traj = mkTrajClosed w T p ag := by
    injection htraj2
  subst htraj3
  have hdl := hB.2.2.2.1
  obtain ⟨hmle, -, haq⟩ := hB.2.2.2.2.2 (p, ag)
    (mem_of_lookup w.agents p ag hag)
  dsimp only at hmle haq
  rw [mkTrajClosed_actions w hB T p ag i hi2, mkTrajClosed_obs w T p ag]
  have hQlen : w.prev_agent_outputs.length = 1 + w.min_delay := hdl
  have hQle : w.prev_agent_outputs.length ≤ i := by omega
  rw [List.getElem?_append_right hQle]
  have hjlt : i - w.prev_agent_outputs.length < T := by
    rw [hQlen]
    omega
  rw [List.getElem?_map, List.getElem?_range hjlt]
  show some (lookupA p (entryAt w (w.rolloutLoop T).1
    (i - w.prev_agent_outputs.length)) ag.dummy_sample_outputs) = _
  rw [show entryAt w (w.rolloutLoop T).1 (i - w.prev_agent_outputs.length) =
    (w.agents.map (fun pa => (pa.1, poppedAt w.embed_game
      (w.rolloutLoop T).1 pa (i - w.prev_agent_outputs.length)))) from rfl]
  rw [lookupA_map_key' w.agents _ p ag ag.dummy_sample_outputs hag]
  unfold poppedAt
  rw [List.getD_append_right _ _ _ _ (by rw [haq, hQlen]; omega :
    ag.action_queue.length ≤ i - w.prev_agent_outputs.length)]
  have hidx : i - w.prev_agent_outputs.length - ag.action_queue.length =
      i - ag.delay - 1 := by
    rw [haq, hQlen]
    omega
  rw [hidx]
  have hcl : i - ag.delay - 1 < (computeScan ag.step ag.vars ag.hidden
      (obsOf w.embed_game p (w.rolloutLoop T).1)).1.length := by
    rw [computeScan_length, obsOf_length, rolloutLoop_length]
    omega
  rw [List.getD_eq_getElem _ _ hcl, List.getElem?_eq_getElem hcl]

/-- A port with no agent yields no trajectory. -/
theorem rollout_traj_lookup_none (w : RolloutWorker G C A H V W R)
    (hB : w.Boundary) (T : Nat) (p : Port)
    (hag : w.agents.lookup p = none) :
    ((w.rollout T).1).lookup p = none := by
  obtain ⟨hlen, hmind, hembed, hrew, henvl, hdeq, hags⟩ := loopInv_main w hB T
  have hzip : w.agents.zip ((w.rolloutLoop T).2.agents) =
      w.agents.map (fun pa =>
        (pa, (pa.1, midAgent w.embed_game (w.rolloutLoop T).1 pa.1 pa.2 T))) := by
    have h := List.zip_map' id (fun pa : Port × DelayedAgent G C A H V =>
      (pa.1, midAgent w.embed_game (w.rolloutLoop T).1 pa.1 pa.2 T)) w.agents
    simp only [List.map_id, id_eq] at h
    rw [hags]
    exact h
  show ((w.agents.zip ((w.rolloutLoop T).2.agents)).map
    (fun pp => (pp.1.1, trajBody (w.rolloutLoop T).2 T
      ((w.rolloutLoop T).1 ++ [((w.rolloutLoop T).2.env.peek,
        (w.rolloutLoop T).2.prev_agent_outputs.headD [])])
      (w.rolloutLoop T).2.prev_agent_outputs.tail
      pp.1.1 pp.1.2 pp.2.2))).lookup p = _
  rw [hzip, List.map_map]
  have hlk := lookup_map_key w.agents
    (fun pa => trajBody (w.rolloutLoop T).2 T
      ((w.rolloutLoop T).1 ++ [((w.rolloutLoop T).2.env.peek,
        (w.rolloutLoop T).2.prev_agent_outputs.headD [])])
      (w.rolloutLoop T).2.prev_agent_outputs.tail
      pa.1 pa.2 (midAgent w.embed_game (w.rolloutLoop T).1 pa.1 pa.2 T)) p
  rw [show ((fun pp : (Port × DelayedAgent G C A H V) ×
        (Port × DelayedAgent G C A H V) =>
      (pp.1.1, trajBody (w.rolloutLoop T).2 T
        ((w.rolloutLoop T).1 ++ [((w.rolloutLoop T).2.env.peek,
          (w.rolloutLoop T).2.prev_agent_outputs.headD [])])
        (w.rolloutLoop T).2.prev_agent_outputs.tail
        pp.1.1 pp.1.2 pp.2.2)) ∘
      (fun pa : Port × DelayedAgent G C A H V =>
        (pa, (pa.1, midAgent w.embed_game (w.rolloutLoop T).1 pa.1 pa.2 T)))) =
    (fun pa : Port × DelayedAgent G C A H V =>
      (pa.1, trajBody (w.rolloutLoop T).2 T
        ((w.rolloutLoop T).1 ++ [((w.rolloutLoop T).2.env.peek,
          (w.rolloutLoop T).2.prev_agent_outputs.headD [])])
        (w.rolloutLoop T).2.prev_agent_outputs.tail
        pa.1 pa.2 (midAgent w.embed_game (w.rolloutLoop T).1 pa.1 pa.2 T)))
    from rfl]
  rw [hlk, hag]
  rfl

/-- The first recorded frame of any rollout call is the environment peek
paired with the oldest pending entry, exactly what the previous call left
as its overlap frame. -/
theorem rollout_first_rec (w : RolloutWorker G C A H V W R) (T : Nat) :
    ((w.rolloutLoop T).1 ++ [((w.rolloutLoop T).2.env.peek,
        (w.rolloutLoop T).2.prev_agent_outputs.headD [])]).head? =
      some (w.env.peek, w.prev_agent_outputs.headD []) := by
  cases T with
  | zero => rfl
  | succ n =>
    show ((w.rolloutStep.1 :: (w.rolloutStep.2.rolloutLoop n).1) ++ _).head? = _
    simp only [List.cons_append, List.head?_cons]
    unfold RolloutWorker.rolloutStep
    dsimp only
    rw [env_pop_fst_eq_peek]

/-- C6: the final recorded frame is taken by `env.peek` (not pop) paired
with the oldest pending-outputs entry (not dequeued), so two consecutive
`rollout()` calls on the same worker are seamless: the final overlap frame
(state, paired action, reset flag) of the first call is the first recorded
frame of the second call, for every agent. -/
theorem rollout_seamless (w : RolloutWorker G C A H V W R)
    (hB : w.Boundary) (T₁ T₂ : Nat) (p : Port)
    (t₁ t₂ : Trajectory G A H R)
    (h₁ : ((w.rollout T₁).1).lookup p = some t₁)
    (h₂ : (((w.rollout T₁).2).rollout T₂).1.lookup p = some t₂) :
    t₁.states.getLast? = t₂.states.head? ∧
    t₁.actions.getLast? = t₂.actions.head? ∧
    t₁.is_resetting.getLast? = t₂.is_resetting.head? := by
  have hembed : (w.rolloutLoop T₁).2.embed_game = w.embed_game :=
    (loopInv_main w hB T₁).2.2.1
  cases hag : w.agents.lookup p with
  | none => rw [rollout_traj_lookup_none w hB T₁ p hag] at h₁; exact absurd h₁ (by simp)
  | some ag =>
  have hB₂ := boundary_rollout w hB T₁
  have ht₁ := rollout_traj_lookup w hB T₁ p ag hag
  rw [h₁] at ht₁
  have ht₁e : t₁ = mkTrajClosed w T₁ p ag := by injection ht₁
  have hag₂ : ((w.rollout T₁).2).agents.lookup p =
      some (drainedAgent w.embed_game (w.rolloutLoop T₁).1 p ag) := by
    rw [rollout_agents w hB T₁]
    rw [lookup_map_key w.agents
      (fun pa => drainedAgent w.embed_game (w.rolloutLoop T₁).1 pa.1 pa.2) p,
      hag]
    rfl
  have ht₂ := rollout_traj_lookup ((w.rollout T₁).2) hB₂ T₂ p
    (drainedAgent w.embed_game (w.rolloutLoop T₁).1 p ag) hag₂
  rw [h₂] at ht₂
  have ht₂e : t₂ = mkTrajClosed ((w.rollout T₁).2) T₂ p
      (drainedAgent w.embed_game (w.rolloutLoop T₁).1 p ag) := by
    injection ht₂
  subst ht₁e ht₂e
  have hfirst := rollout_first_rec ((w.rollout T₁).2) T₂
  have henv2 : ((w.rollout T₁).2).env = (w.rolloutLoop T₁).2.env := rfl
  have hprev2 : ((w.rollout T₁).2).prev_agent_outputs =
      (w.rolloutLoop T₁).2.prev_agent_outputs := rfl
  rw [henv2, hprev2] at hfirst
  have hembed2 : ((w.rollout T₁).2).embed_game = w.embed_game := hembed
  refine ⟨?_, ?_, ?_⟩
  · have h1s : (mkTrajClosed w T₁ p ag).states.getLast? =
        some (w.embed_game
          (((w.rolloutLoop T₁).2.env.peek).gamestates p)) := by
      unfold mkTrajClosed
      dsimp only
      rw [List.getLast?_map, List.getLast?_map, List.getLast?_concat]
      rfl
    have h2s : (mkTrajClosed ((w.rollout T₁).2) T₂ p
        (drainedAgent w.embed_game (w.rolloutLoop T₁).1 p ag)).states.head? =
        some (w.embed_game
          (((w.rolloutLoop T₁).2.env.peek).gamestates p)) := by
      unfold mkTrajClosed
      dsimp only
      rw [List.head?_map, List.head?_map, hfirst, hembed2]
      rfl
    exact h1s.trans h2s.symm
  · have h1a : (mkTrajClosed w T₁ p ag).actions.getLast? =
        some (lookupA p ((w.rolloutLoop T₁).2.prev_agent_outputs.headD [])
          ag.dummy_sample_outputs) := by
      unfold mkTrajClosed
      dsimp only
      rw [List.getLast?_map, List.getLast?_concat]
      rfl
    have h2a : (mkTrajClosed ((w.rollout T₁).2) T₂ p
        (drainedAgent w.embed_game (w.rolloutLoop T₁).1 p ag)).actions.head? =
        some (lookupA p ((w.rolloutLoop T₁).2.prev_agent_outputs.headD [])
          ag.dummy_sample_outputs) := by
      unfold mkTrajClosed
      dsimp only
      rw [List.head?_map, hfirst]
      rfl
    exact h1a.trans h2a.symm
  · have h1r : (mkTrajClosed w T₁ p ag).is_resetting.getLast? =
        some ((w.rolloutLoop T₁).2.env.peek).needs_reset := by
      unfold mkTrajClosed
      dsimp only
      rw [List.getLast?_map, List.getLast?_concat]
      rfl
    have h2r : (mkTrajClosed ((w.rollout T₁).2) T₂ p
        (drainedAgent w.embed_game (w.rolloutLoop T₁).1 p
          ag)).is_resetting.head? =
        some ((w.rolloutLoop T₁).2.env.peek).needs_reset := by
      unfold mkTrajClosed
      dsimp only
      rw [List.head?_map, hfirst]
      rfl
    exact h1r.trans h2r.symm

/-- Every `_push_actions` round appends exactly one frame to the
environment buffer. -/
theorem pushActions_env_length (w : RolloutWorker G C A H V W R) :
    w.pushActions.env.queue.length = w.env.queue.length + 1 := by
  simp [RolloutWorker.pushActions, BatchedEnvironment.push]

theorem iterate_pushActions_env_length (k : Nat) :
    ∀ w : RolloutWorker G C A H V W R,
      (RolloutWorker.pushActions^[k] w).env.queue.length =
        w.env.queue.length + k := by
  induction k with
  | zero => intro w; rfl
  | succ n ih =>
    intro w
    rw [Function.iterate_succ_apply, ih, pushActions_env_length]
    omega

/-- C2: for every agent, if
`(batch_steps - 1) + (env.num_steps - 1) > 1 + delay` (computed over the
integers, as python does), then construction raises the `ValueError`
deterministically: `init` returns the error before any priming push for
that configuration executes, and no worker is ever produced. -/
theorem init_buffer_error (agents : List (Port × DelayedAgent G C A H V))
    (env : BatchedEnvironment G C W) (embed_game : G → G)
    (reward_fn : G → G → R)
    (h : ∃ pa ∈ agents, bufferCheckFails env.num_steps pa.2 = true) :
    RolloutWorker.init agents env embed_game reward_fn =
      .error "Agent and environment step buffer sizes are too large" := by
  unfold RolloutWorker.init
  rw [if_pos (List.any_eq_true.mpr h)]

/-- C4: for every `rollout(num_steps)` call, each per-agent trajectory has
`num_steps + 1` states, `num_steps + 1` actions, `num_steps + 1` reset
flags and `num_steps` rewards (one fewer reward than states). -/
theorem trajectory_lengths (w : RolloutWorker G C A H V W R) (T : Nat)
    (p : Port) (traj : Trajectory G A H R)
    (hmem : (p, traj) ∈ (w.rollout T).1) :
    traj.states.length = T + 1 ∧ traj.actions.length = T + 1 ∧
    traj.is_resetting.length = T + 1 ∧ traj.rewards.length = T := by
  have hshape : (w.rollout T).1 =
      (w.agents.zip ((w.rolloutLoop T).2.agents)).map
        (fun pp => (pp.1.1, trajBody (w.rolloutLoop T).2 T
          ((w.rolloutLoop T).1 ++ [((w.rolloutLoop T).2.env.peek,
            (w.rolloutLoop T).2.prev_agent_outputs.headD [])])
          (w.rolloutLoop T).2.prev_agent_outputs.tail
          pp.1.1 pp.1.2 pp.2.2)) := rfl
  rw [hshape] at hmem
  obtain ⟨pp, -, hpp⟩ := List.mem_map.mp hmem
  have htraj : traj = trajBody (w.rolloutLoop T).2 T
      ((w.rolloutLoop T).1 ++ [((w.rolloutLoop T).2.env.peek,
        (w.rolloutLoop T).2.prev_agent_outputs.headD [])])
      (w.rolloutLoop T).2.prev_agent_outputs.tail
      pp.1.1 pp.1.2 pp.2.2 := congrArg Prod.snd hpp.symm
  subst htraj
  have hlen : ((w.rolloutLoop T).1 ++ [((w.rolloutLoop T).2.env.peek,
      (w.rolloutLoop T).2.prev_agent_outputs.headD [])]).length = T + 1 := by
    simp [rolloutLoop_length]
  unfold trajBody compute_rewards
  refine ⟨by simp [rolloutLoop_length], by simp [rolloutLoop_length],
    by simp [rolloutLoop_length], ?_⟩
  simp only [List.length_zipWith, List.length_tail, List.length_map, hlen]
  omega

/-- C5: a successful construction consists of the buffer-size validation
followed by exactly `min_delay` priming rounds of `_push_actions` (each
popping one action from every agent, appending the popped set to the deque
and pushing one decoded action set into the environment), with no state
pushed to any agent; `min_delay = 0` means zero rounds. -/
theorem construction_priming (agents : List (Port × DelayedAgent G C A H V))
    (env : BatchedEnvironment G C W) (embed_game : G → G)
    (reward_fn : G → G → R) (w : RolloutWorker G C A H V W R)
    (hok : RolloutWorker.init agents env embed_game reward_fn = .ok w) :
    w = RolloutWorker.pushActions^[minDelay agents]
      (seedWorker agents env embed_game reward_fn) ∧
    (FreshAgents agents → ∀ pa ∈ w.agents, pa.2.state_queue = []) ∧
    (minDelay agents = 0 → w = seedWorker agents env embed_game reward_fn) ∧
    w.env.queue.length = env.queue.length + minDelay agents ∧
    (∀ w' : RolloutWorker G C A H V W R,
      w'.pushActions.prev_agent_outputs = w'.prev_agent_outputs ++
        [w'.agents.map (fun pa => (pa.1, pa.2.pop.1))] ∧
      w'.pushActions.env.queue.length = w'.env.queue.length + 1) := by
  have hw := init_ok agents env embed_game reward_fn w hok
  refine ⟨hw, ?_, ?_, ?_, ?_⟩
  · intro hfresh pa' hpa'
    have hP := primeInv_iterate agents env embed_game reward_fn
      (minDelay agents) (fun pa hpa => by
        rw [(hfresh pa hpa).2, List.length_replicate]
        exact minDelay_le agents pa hpa)
    rw [← hw] at hP
    rw [hP.1] at hpa'
    obtain ⟨pa, hpa, hpaeq⟩ := List.mem_map.mp hpa'
    subst hpaeq
    exact (hfresh pa hpa).1
  · intro h0
    rw [hw, h0]
    rfl
  · rw [hw, iterate_pushActions_env_length]
    rfl
  · intro w'
    constructor
    · unfold RolloutWorker.pushActions
      dsimp only
      rw [List.map_map]
      rfl
    · exact pushActions_env_length w'

/-- C7: rollout finalization drains every agent with
`peek_n(delay - min_delay)`; afterwards every agent's internal state queue
is empty (the assertion never fails under the protocol), and each agent's
`delayed_actions` list carries all `delay` in-flight actions (the
`min_delay` deque-tail entries plus the `delay - min_delay` peeked ones). -/
theorem drain_flushes_agents (w : RolloutWorker G C A H V W R)
    (hB : w.Boundary) (T : Nat) :
    (∀ p ag traj, w.agents.lookup p = some ag →
      ((w.rollout T).1).lookup p = some traj →
      traj.delayed_actions.length = ag.delay) ∧
    (∀ pa ∈ (w.rollout T).2.agents, pa.2.state_queue = []) := by
  have hdml : (w.rolloutLoop T).2.prev_agent_outputs.length =
      1 + w.min_delay := by
    obtain ⟨hlen, -, -, -, -, hdeq, -⟩ := loopInv_main w hB T
    have hlen2 := congrArg List.length hdeq
    simp only [List.length_append, List.length_map, List.length_range,
      hB.2.2.2.1] at hlen2
    omega
  constructor
  · intro p ag traj hag htraj
    have ht := rollout_traj_lookup w hB T p ag hag
    rw [htraj] at ht
    have hte : traj = mkTrajClosed w T p ag := by injection ht
    subst hte
    obtain ⟨hmle, -, haq⟩ := hB.2.2.2.2.2 (p, ag)
      (mem_of_lookup w.agents p ag hag)
    dsimp only at hmle haq
    unfold mkTrajClosed
    dsimp only
    rw [List.length_append, List.length_map, List.length_tail, hdml]
    rw [List.length_take]
    simp only [drainedAgent, List.length_append, List.length_drop,
      computeScan_length, obsOf_length, rolloutLoop_length, haq]
    omega
  · intro pa' hpa'
    rw [rollout_agents w hB T] at hpa'
    obtain ⟨pa, -, hpaeq⟩ := List.mem_map.mp hpa'
    subst hpaeq
    rfl

/-- C3: the pending-outputs deque has length exactly `1 + min_delay` right
after construction-time priming; every rollout step pops exactly one entry
and appends exactly one entry, preserving the length; and the deque is
back at `1 + min_delay` at the end of every `rollout()` call. -/
theorem pending_deque_invariant :
    (∀ (agents : List (Port × DelayedAgent G C A H V))
      (env : BatchedEnvironment G C W) (embed_game : G → G)
      (reward_fn : G → G → R) (w : RolloutWorker G C A H V W R),
      FreshAgents agents →
      RolloutWorker.init agents env embed_game reward_fn = .ok w →
      w.prev_agent_outputs.length = 1 + w.min_delay) ∧
    (∀ w' : RolloutWorker G C A H V W R,
      (∃ entry, w'.rolloutStep.2.prev_agent_outputs =
        w'.prev_agent_outputs.tail ++ [entry]) ∧
      (w'.prev_agent_outputs ≠ [] →
        w'.rolloutStep.2.prev_agent_outputs.length =
          w'.prev_agent_outputs.length)) ∧
    (∀ (w : RolloutWorker G C A H V W R), w.Boundary → ∀ T : Nat,
      (w.rollout T).2.prev_agent_outputs.length = 1 + w.min_delay) := by
  refine ⟨?_, ?_, ?_⟩
  · intro agents env embed_game reward_fn w hfresh hok
    have hw := init_ok agents env embed_game reward_fn w hok
    have hP := primeInv_iterate agents env embed_game reward_fn
      (minDelay agents) (fun pa hpa => by
        rw [(hfresh pa hpa).2, List.length_replicate]
        exact minDelay_le agents pa hpa)
    rw [← hw] at hP
    rw [hP.2.1, hP.2.2.2.1]
    simp [Nat.add_comm]
  · intro w'
    constructor
    · exact ⟨_, rfl⟩
    · intro hne
      show (w'.prev_agent_outputs.tail ++ [_]).length = _
      rw [List.length_append, List.length_tail]
      have := List.length_pos_of_ne_nil hne
      simp
      omega
  · intro w hB T
    have hB₂ := boundary_rollout w hB T
    have hm2 : (w.rollout T).2.min_delay = w.min_delay :=
      (loopInv_main w hB T).2.1
    rw [hB₂.2.2.2.1, hm2]

/-- C9: the pending-outputs deque is seeded at construction, before
priming, with a single entry mapping every port to that agent's constant
dummy sample outputs; consequently, the action recorded against the first
state of a freshly constructed worker's first rollout is the dummy
placeholder, not a computed action. -/
theorem dummy_seed_first_action
    (agents : List (Port × DelayedAgent G C A H V))
    (env : BatchedEnvironment G C W) (embed_game : G → G)
    (reward_fn : G → G → R) (w : RolloutWorker G C A H V W R)
    (T : Nat) (p : Port) (ag : DelayedAgent G C A H V)
    (traj : Trajectory G A H R)
    (hnd : (agents.map Prod.fst).Nodup) (hpos : 0 < agents.length)
    (hfresh : FreshAgents agents) (henv : env.queue.length = 1)
    (hok : RolloutWorker.init agents env embed_game reward_fn = .ok w)
    (hag : agents.lookup p = some ag)
    (htraj : ((w.rollout T).1).lookup p = some traj) :
    (seedWorker agents env embed_game reward_fn).prev_agent_outputs =
      [agents.map (fun pa => (pa.1, pa.2.dummy_sample_outputs))] ∧
    traj.actions.head? = some ag.dummy_sample_outputs := by
  refine ⟨rfl, ?_⟩
  have hB := boundary_init agents env embed_game reward_fn w hnd hpos
    hfresh henv hok
  have hP := primeInv_iterate agents env embed_game reward_fn
    (minDelay agents) (fun pa hpa => by
      rw [(hfresh pa hpa).2, List.length_replicate]
      exact minDelay_le agents pa hpa)
  rw [← init_ok agents env embed_game reward_fn w hok] at hP
  obtain ⟨hagents, hdq, -, -, -, -, -⟩ := hP
  have hag' : w.agents.lookup p =
      some (primedAgent (minDelay agents) ag) := by
    rw [hagents, lookup_map_key agents
      (fun pa => primedAgent (minDelay agents) pa.2) p, hag]
    rfl
  have ht := rollout_traj_lookup w hB T p _ hag'
  rw [htraj] at ht
  have hte : traj = mkTrajClosed w T p (primedAgent (minDelay agents) ag) := by
    injection ht
  subst hte
  have hact := mkTrajClosed_actions w hB T p
    (primedAgent (minDelay agents) ag) 0 (Nat.zero_le T)
  rw [List.head?_eq_getElem?, hact]
  have h0lt : 0 < w.prev_agent_outputs.length := by
    rw [hdq]
    simp
  rw [List.getElem?_append_left h0lt, hdq]
  simp only [List.getElem?_cons_zero, Option.map_some']
  rw [lookupA_map_key' agents (fun pa => pa.2.dummy_sample_outputs) p ag _
    hag]

/-- `updateAgents` leaves every other port's entry untouched. -/
theorem lookup_updateAgents_ne (ags : List (Port × DelayedAgent G C A H V))
    (pv : Port × List V) (q : Port) (hq : q ≠ pv.1) :
    (updateAgents ags pv).lookup q = ags.lookup q := by
  induction ags with
  | nil => rfl
  | cons pa tl ih =>
    unfold updateAgents at ih ⊢
    by_cases hc : pa.1 = pv.1
    · simp only [List.map_cons, if_pos hc]
      rw [List.lookup_cons, List.lookup_cons]
      have hqf : (q == pa.1) = false := beq_false_of_ne (by rw [hc]; exact hq)
      rw [hqf]
      exact ih
    · simp only [List.map_cons, if_neg hc]
      obtain ⟨pap, paa⟩ := pa
      rw [List.lookup_cons, List.lookup_cons]
      cases hqq : q == pap
      · exact ih
      · rfl

/-- `updateAgents` reassigns exactly the targeted port's variables. -/
theorem lookup_updateAgents_eq (ags : List (Port × DelayedAgent G C A H V))
    (pv : Port × List V) :
    (updateAgents ags pv).lookup pv.1 = (ags.lookup pv.1).map
      (fun ag => { ag with vars := assignZip ag.vars pv.2 }) := by
  induction ags with
  | nil => rfl
  | cons pa tl ih =>
    unfold updateAgents at ih ⊢
    obtain ⟨pap, paa⟩ := pa
    by_cases hc : pap = pv.1
    · subst hc
      simp only [List.map_cons, if_pos rfl]
      rw [List.lookup_cons, List.lookup_cons]
      simp
    · simp only [List.map_cons, if_neg hc]
      rw [List.lookup_cons, List.lookup_cons]
      have : (pv.1 == pap) = false := beq_false_of_ne (fun h => hc h.symm)
      rw [this]
      exact ih

/-- Folding updates over ports other than `p` leaves `p`'s entry alone. -/
theorem foldl_updateAgents_not_mem (updates : List (Port × List V)) :
    ∀ (ags : List (Port × DelayedAgent G C A H V)) (p : Port),
      p ∉ updates.map Prod.fst →
      (updates.foldl updateAgents ags).lookup p = ags.lookup p := by
  induction updates with
  | nil => intro ags p _; rfl
  | cons pv rest ih =>
    intro ags p hp
    simp only [List.map_cons, List.mem_cons, not_or] at hp
    rw [List.foldl_cons, ih _ p hp.2, lookup_updateAgents_ne _ _ _ hp.1]

theorem foldl_updateAgents_mem (updates : List (Port × List V)) :
    ∀ (ags : List (Port × DelayedAgent G C A H V)) (p : Port)
      (vals : List V), (updates.map Prod.fst).Nodup →
      (p, vals) ∈ updates →
      (updates.foldl updateAgents ags).lookup p = (ags.lookup p).map
        (fun ag => { ag with vars := assignZip ag.vars vals }) := by
  induction updates with
  | nil => intro ags p vals _ hmem; simp at hmem
  | cons pv rest ih =>
    intro ags p vals hnd hmem
    rw [List.map_cons, List.nodup_cons] at hnd
    rw [List.foldl_cons]
    rcases List.mem_cons.mp hmem with heq | hmem'
    · subst heq
      rw [foldl_updateAgents_not_mem rest _ p hnd.1,
        lookup_updateAgents_eq ags (p, vals)]
    · have hppv : p ≠ pv.1 := by
        intro hcontra
        apply hnd.1
        rw [← hcontra]
        exact List.mem_map_of_mem Prod.fst hmem'
      rw [ih _ p vals hnd.2 hmem', lookup_updateAgents_ne _ _ _ hppv]

/-- C10: `update_variables(updates)` reassigns only the policy variables of
the ports appearing in `updates`, zipping each port's value sequence onto
that port's variables in order; the agents of absent ports, every agent's
delay buffers and hidden state (visible in the record update touching only
`vars`), the pending-outputs deque, `min_delay` and the environment are all
unchanged. -/
theorem update_variables_frame (w : RolloutWorker G C A H V W R)
    (updates : List (Port × List V))
    (hnd : (updates.map Prod.fst).Nodup) :
    (∀ p, p ∉ updates.map Prod.fst →
      (w.update_variables updates).agents.lookup p = w.agents.lookup p) ∧
    (∀ p vals, (p, vals) ∈ updates →
      (w.update_variables updates).agents.lookup p =
        (w.agents.lookup p).map (fun ag =>
          { ag with vars := assignZip ag.vars vals })) ∧
    (w.update_variables updates).prev_agent_outputs =
      w.prev_agent_outputs ∧
    (w.update_variables updates).env = w.env ∧
    (w.update_variables updates).min_delay = w.min_delay := by
  refine ⟨?_, ?_, rfl, rfl, rfl⟩
  · intro p hp
    exact foldl_updateAgents_not_mem updates w.agents p hp
  · intro p vals hmem
    exact foldl_updateAgents_mem updates w.agents p vals hnd hmem

/-! ### Concrete instances

A small executable model: game states, actions, hidden states, variables,
world and rewards are all `Nat`.  The decision function echoes the observed
state as its action (so distinct states yield distinct actions) and counts
processed observations into the hidden state; the environment numbers its
frames.  This makes every index shift observable in the trajectories. -/

def exStep : List Nat → Nat → Nat → Bool → Nat × Nat :=
  fun _ h g _ => (g, h + 1)

def exAgent (d : Nat) : DelayedAgent Nat Nat Nat Nat Nat :=
  mkDelayedAgent d 1 7 999 id exStep [] 0

def exEnv : BatchedEnvironment Nat Nat Nat :=
  { num_steps := 1
    stepW := fun w _ => w + 1
    view := fun w => ⟨fun _ => w, false⟩
    world := 0
    queue := [⟨fun _ => 0, false⟩] }

def exRF : Nat → Nat → Nat := fun a b => b - a

def exInit (d : Nat) :
    Except String (RolloutWorker Nat Nat Nat Nat Nat Nat Nat) :=
  RolloutWorker.init [(1, exAgent d)] exEnv id exRF

def exW (d : Nat) : RolloutWorker Nat Nat Nat Nat Nat Nat Nat :=
  match exInit d with
  | .ok w => w
  | .error _ => seedWorker [(1, exAgent d)] exEnv id exRF

def defaultTraj : Trajectory Nat Nat Nat Nat := ⟨[], [], [], [], [], 0, []⟩

/-- A delay-1 worker past its first rollout (steady state). -/
def exSteady : RolloutWorker Nat Nat Nat Nat Nat Nat Nat :=
  ((exW 1).rollout 4).2

def exSteadyAg : DelayedAgent Nat Nat Nat Nat Nat :=
  (exSteady.agents.headD (0, exAgent 1)).2

def exTrajS : Trajectory Nat Nat Nat Nat :=
  (((exSteady.rollout 3).1).headD (0, defaultTraj)).2

/-- C1 (counterexample): a delay-1 agent on a steady-state worker, rollout
length 3, index `i = 2`: all of the claim's hypotheses hold, yet the
recorded action at index 2 is not the action computed from the state at
index `i - D = 1` (it is the one computed from index `i - D - 1 = 0`):
the states are `[4, 5, 6, 7]`, the computed actions echo them, and the
recorded action at index 2 is `4`, not `5`. -/
theorem delay_claim_counterexample :
    exSteady.Boundary ∧
    exSteady.agents.lookup 1 = some exSteadyAg ∧
    ((exSteady.rollout 3).1).lookup 1 = some exTrajS ∧
    exSteadyAg.delay + 1 ≤ 2 ∧ (2 : Nat) ≤ 3 ∧
    ¬ (exTrajS.actions[2]? =
        ((computeScan exSteadyAg.step exSteadyAg.vars exSteadyAg.hidden
          ((exTrajS.states.zip exTrajS.is_resetting).take 3)).1)[
            2 - exSteadyAg.delay]?) :=
  ⟨by decide, rfl, rfl, by decide, by decide, by decide⟩

theorem rollout_delay_alignment_witness :
    exSteady.Boundary ∧
    exSteadyAg.delay + 1 ≤ 2 ∧ (2 : Nat) ≤ 3 ∧
    exTrajS.actions[2]? =
      ((computeScan exSteadyAg.step exSteadyAg.vars exSteadyAg.hidden
        ((exTrajS.states.zip exTrajS.is_resetting).take 3)).1)[
          2 - exSteadyAg.delay - 1]? :=
  ⟨by decide, by decide, by decide,
    rollout_delay_alignment exSteady 3 1 2 exSteadyAg exTrajS (by decide)
      rfl rfl (by decide) (by decide)⟩

def exBigAgent : DelayedAgent Nat Nat Nat Nat Nat :=
  mkDelayedAgent 0 4 7 999 id exStep [] 0

theorem init_buffer_error_witness :
    (∃ pa ∈ [(1, exBigAgent)],
      bufferCheckFails exEnv.num_steps pa.2 = true) ∧
    RolloutWorker.init [(1, exBigAgent)] exEnv id exRF =
      .error "Agent and environment step buffer sizes are too large" :=
  ⟨by decide, init_buffer_error [(1, exBigAgent)] exEnv id exRF (by decide)⟩

theorem pending_deque_invariant_witness :
    FreshAgents [(1, exAgent 2)] ∧
    (exW 2).prev_agent_outputs.length = 1 + (exW 2).min_delay ∧
    ((exW 2).prev_agent_outputs ≠ [] ∧
      (exW 2).rolloutStep.2.prev_agent_outputs.length =
        (exW 2).prev_agent_outputs.length) ∧
    ((exW 2).Boundary ∧
      ((exW 2).rollout 5).2.prev_agent_outputs.length =
        1 + (exW 2).min_delay) :=
  ⟨by decide,
    (@pending_deque_invariant Nat Nat Nat Nat Nat Nat Nat).1
      [(1, exAgent 2)] exEnv id exRF (exW 2) (by decide) rfl,
    ⟨by decide,
      ((@pending_deque_invariant Nat Nat Nat Nat Nat Nat Nat).2.1
        (exW 2)).2 (by decide)⟩,
    ⟨by decide,
      (@pending_deque_invariant Nat Nat Nat Nat Nat Nat Nat).2.2
        (exW 2) (by decide) 5⟩⟩

def exTraj0 : Trajectory Nat Nat Nat Nat :=
  ((((exW 0).rollout 3).1).headD (0, defaultTraj)).2

theorem trajectory_lengths_witness :
    (1, exTraj0) ∈ ((exW 0).rollout 3).1 ∧
    exTraj0.states.length = 3 + 1 ∧ exTraj0.actions.length = 3 + 1 ∧
    exTraj0.is_resetting.length = 3 + 1 ∧ exTraj0.rewards.length = 3 :=
  ⟨by show (1, exTraj0) ∈ [(1, exTraj0)]; exact List.mem_singleton.mpr rfl,
   trajectory_lengths (exW 0) 3 1 exTraj0
     (by show (1, exTraj0) ∈ [(1, exTraj0)];
         exact List.mem_singleton.mpr rfl)⟩

theorem construction_priming_witness :
    RolloutWorker.init [(1, exAgent 2)] exEnv id exRF = .ok (exW 2) ∧
    ((exW 2) = RolloutWorker.pushActions^[minDelay [(1, exAgent 2)]]
      (seedWorker [(1, exAgent 2)] exEnv id exRF) ∧
    (FreshAgents [(1, exAgent 2)] →
      ∀ pa ∈ (exW 2).agents, pa.2.state_queue = []) ∧
    (minDelay [(1, exAgent 2)] = 0 →
      (exW 2) = seedWorker [(1, exAgent 2)] exEnv id exRF) ∧
    (exW 2).env.queue.length =
      exEnv.queue.length + minDelay [(1, exAgent 2)] ∧
    (∀ w' : RolloutWorker Nat Nat Nat Nat Nat Nat Nat,
      w'.pushActions.prev_agent_outputs = w'.prev_agent_outputs ++
        [w'.agents.map (fun pa => (pa.1, pa.2.pop.1))] ∧
      w'.pushActions.env.queue.length = w'.env.queue.length + 1)) :=
  ⟨rfl, construction_priming [(1, exAgent 2)] exEnv id exRF (exW 2) rfl⟩

theorem rollout_seamless_witness :
    (exW 1).Boundary ∧
    ((((exW 1).rollout 2).1).headD (0, defaultTraj)).2.states.getLast? =
      (((((exW 1).rollout 2).2).rollout 2).1.headD
        (0, defaultTraj)).2.states.head? ∧
    ((((exW 1).rollout 2).1).headD (0, defaultTraj)).2.actions.getLast? =
      (((((exW 1).rollout 2).2).rollout 2).1.headD
        (0, defaultTraj)).2.actions.head? ∧
    ((((exW 1).rollout 2).1).headD
        (0, defaultTraj)).2.is_resetting.getLast? =
      (((((exW 1).rollout 2).2).rollout 2).1.headD
        (0, defaultTraj)).2.is_resetting.head? :=
  ⟨by decide, rollout_seamless (exW 1) (by decide) 2 2 1 _ _ rfl rfl⟩

def exInitV : Except String (RolloutWorker Nat Nat Nat Nat Nat Nat Nat) :=
  RolloutWorker.init [(1, exAgent 1), (2, exAgent 3)] exEnv id exRF

/-- The spec's C7 scenario: two agents with delays 1 and 3 sharing one
environment, so `min_delay = 1`; the delay-3 agent's finalization drain is
`peek_n(3 - 1) = peek_n(2)`, the delay-1 agent's is `peek_n(0)`. -/
def exV : RolloutWorker Nat Nat Nat Nat Nat Nat Nat :=
  match exInitV with
  | .ok w => w
  | .error _ => seedWorker [(1, exAgent 1), (2, exAgent 3)] exEnv id exRF

def exVAg2 : DelayedAgent Nat Nat Nat Nat Nat :=
  ((exV.agents.drop 1).headD (0, exAgent 0)).2

def exVTraj2 : Trajectory Nat Nat Nat Nat :=
  ((((exV.rollout 5).1).drop 1).headD (0, defaultTraj)).2

theorem drain_flushes_agents_witness :
    exV.Boundary ∧
    exVTraj2.delayed_actions.length = exVAg2.delay ∧
    (∀ pa ∈ (exV.rollout 5).2.agents, pa.2.state_queue = []) :=
  ⟨by decide,
   (drain_flushes_agents exV (by decide) 5).1 2 exVAg2 exVTraj2 rfl rfl,
   (drain_flushes_agents exV (by decide) 5).2⟩

def exTraj8 : Trajectory Nat Nat Nat Nat :=
  ((((exW 2).rollout 5).1).headD (0, defaultTraj)).2

/-- C8 (counterexample): one agent with delay 2 and rollout length 5.  The
trajectory's `delayed_actions` does have exactly 2 entries, but they are
not "drained via peekN": the finalization `peek_n` call for this agent has
argument `delay - min_delay = 0` and contributes the empty list, so the
drain contributions are not the `delayed_actions` entries. -/
theorem delay2_scenario_counterexample :
    exTraj8.delayed_actions.length = 2 ∧
    RolloutWorker.drainContributions (exW 2) 5 = [(1, [])] ∧
    ¬ RolloutWorker.drainContributions (exW 2) 5 =
        [(1, exTraj8.delayed_actions)] :=
  ⟨by decide, by decide, by decide⟩

/-- C8 (amended): one agent with delay 2, rollout length 5: exactly 2
priming rounds occur at construction, the pending-outputs deque length
stabilizes at 3 (after construction and after the rollout), and the
trajectory's `delayed_actions` has exactly 2 entries — which are the tail
of the pending-outputs deque projected to the port, the `peek_n(0)` drain
contributing none. -/
theorem delay2_scenario :
    exInit 2 = .ok (RolloutWorker.pushActions^[2]
      (seedWorker [(1, exAgent 2)] exEnv id exRF)) ∧
    minDelay [(1, exAgent 2)] = 2 ∧
    (exW 2).prev_agent_outputs.length = 3 ∧
    ((exW 2).rollout 5).2.prev_agent_outputs.length = 3 ∧
    exTraj8.delayed_actions.length = 2 ∧
    exTraj8.delayed_actions =
      ((exW 2).rolloutLoop 5).2.prev_agent_outputs.tail.map
        (fun e => lookupA 1 e 999) ∧
    RolloutWorker.drainContributions (exW 2) 5 = [(1, [])] :=
  ⟨rfl, by decide, by decide, by decide, by decide, by decide, by decide⟩

def exTraj9 : Trajectory Nat Nat Nat Nat :=
  ((((exW 2).rollout 3).1).headD (0, defaultTraj)).2

theorem dummy_seed_first_action_witness :
    FreshAgents [(1, exAgent 2)] ∧
    ((seedWorker [(1, exAgent 2)] exEnv id exRF :
        RolloutWorker Nat Nat Nat Nat Nat Nat Nat).prev_agent_outputs =
      [[(1, exAgent 2)].map (fun pa => (pa.1, pa.2.dummy_sample_outputs))] ∧
    exTraj9.actions.head? = some (exAgent 2).dummy_sample_outputs) :=
  ⟨by decide,
   dummy_seed_first_action [(1, exAgent 2)] exEnv id exRF (exW 2) 3 1
     (exAgent 2) exTraj9 (by decide) (by decide) (by decide) rfl rfl rfl
     rfl⟩

theorem update_variables_frame_witness :
    (([(1, [5, 6])].map Prod.fst).Nodup) ∧
    ((∀ p, p ∉ [(1, [5, 6])].map Prod.fst →
      ((exW 1).update_variables [(1, [5, 6])]).agents.lookup p =
        (exW 1).agents.lookup p) ∧
    (∀ p vals, (p, vals) ∈ [(1, [5, 6])] →
      ((exW 1).update_variables [(1, [5, 6])]).agents.lookup p =
        ((exW 1).agents.lookup p).map (fun ag =>
          { ag with vars := assignZip ag.vars vals })) ∧
    ((exW 1).update_variables [(1, [5, 6])]).prev_agent_outputs =
      (exW 1).prev_agent_outputs ∧
    ((exW 1).update_variables [(1, [5, 6])]).env = (exW 1).env ∧
    ((exW 1).update_variables [(1, [5, 6])]).min_delay =
      (exW 1).min_delay) :=
  ⟨by decide, update_variables_frame (exW 1) [(1, [5, 6])] (by decide)⟩

end SlippiAI
